import Mathlib

/-!
Verification of the gotty server (wsshow/gotty): a shallow embedding of the
WebSocket connection handler (`server/handlers.go`), the file-manager path
sanitization and upload logic (`server/file_handler.go`), and the wire-protocol
tag constants (`bindata/static/js/webtty.d.ts`), with theorems settling the
specification claims about admission control, session accounting, handshake
ordering, path safety, and upload freshness.
-/

set_option maxRecDepth 8192

namespace Gotty

/-! ## Wire-protocol tags (bindata/static/js/webtty.d.ts) -/

/-- Client-to-server tag `msgInputUnknown` from webtty.d.ts. -/
def msgInputUnknown : String := "0"

/-- Client-to-server tag `msgInput` from webtty.d.ts. -/
def msgInput : String := "1"

/-- Client-to-server tag `msgPing` from webtty.d.ts. -/
def msgPing : String := "2"

/-- Client-to-server tag `msgResizeTerminal` from webtty.d.ts. -/
def msgResizeTerminal : String := "3"

/-- Client-to-server tag `msgSetEncoding` from webtty.d.ts. -/
def msgSetEncoding : String := "4"

/-- Server-to-client tag `msgUnknownOutput` from webtty.d.ts. -/
def msgUnknownOutput : String := "0"

/-- Server-to-client tag `msgOutput` from webtty.d.ts. -/
def msgOutput : String := "1"

/-- Server-to-client tag `msgPong` from webtty.d.ts. -/
def msgPong : String := "2"

/-- Server-to-client tag `msgSetWindowTitle` from webtty.d.ts. -/
def msgSetWindowTitle : String := "3"

/-- Server-to-client tag `msgSetPreferences` from webtty.d.ts. -/
def msgSetPreferences : String := "4"

/-- Server-to-client tag `msgSetReconnect` from webtty.d.ts. -/
def msgSetReconnect : String := "5"

/-- Server-to-client tag `msgSetBufferSize` from webtty.d.ts. -/
def msgSetBufferSize : String := "6"

/-- The complete list of client-to-server tag constants declared by
webtty.d.ts, in declaration order.  No other client-to-server tag constant is
declared there, so this list is the whole tag space for that direction. -/
def clientTags : List String :=
  [msgInputUnknown, msgInput, msgPing, msgResizeTerminal, msgSetEncoding]

/-- The complete list of server-to-client tag constants declared by
webtty.d.ts, in declaration order.  No other server-to-client tag constant is
declared there, so this list is the whole tag space for that direction. -/
def serverTags : List String :=
  [msgUnknownOutput, msgOutput, msgPong, msgSetWindowTitle, msgSetPreferences,
   msgSetReconnect, msgSetBufferSize]

/-! ## WebSocket handler model (server/handlers.go)

The handler `generateHandleWS` and the helper `processWSConn` are embedded as
pure functions.  External effects (the websocket read, JSON unmarshalling,
base64 decoding, URL parsing, the process factory, template execution, and the
result of `tty.Run`) are inputs supplied by an environment record; the handler
emits a trace of events recording the observable actions it performs, in
program order.  The `counter` type itself is not part of the sources.
Modelled from the spec: `counter.add(1)` / `counter.done()` are the Admission
Controller operations `enter()` / `leave()`, which increment resp. decrement
the active count and return the new value. -/

/-- Websocket frame types distinguished by `conn.ReadMessage` (only
`websocket.TextMessage` is accepted by `processWSConn`). -/
inductive WSFrameType where
  | text
  | binary
  deriving DecidableEq, Repr

/-- Modelled from the spec: the handshake init message is a JSON object with a
base64 authentication token and an optional argument string (the Go struct
`InitMessage` is declared outside the given sources). -/
structure InitMessage where
  authToken : String
  arguments : String
  deriving DecidableEq, Repr

/-- Go error values relevant to the handler: `nil`, `ctx.Err()` when the
context is canceled, `webtty.ErrSlaveClosed`, `webtty.ErrMasterClosed`, and
any other error carrying a message. -/
inductive GoErr where
  | nil
  | canceled
  | slaveClosed
  | masterClosed
  | other (msg : String)
  deriving DecidableEq, Repr

/-- Observable actions of one handler invocation, in program order:
`httpError` is a call to `http.Error`, `enter`/`leave` are `counter.add(1)` /
`counter.done()` with the value they return, `logConnected` is the
"New client connected" log line, `upgrade` is a successful websocket upgrade,
`factoryNewCall` is the invocation of `server.factory.New` with its query
parameters, `slaveClose` the deferred `slave.Close()`, `runCalled` the call to
`tty.Run`, `connClose` the deferred `conn.Close()`, `logClosed` the deferred
"Connection closed by ..." log line with close reason and remote address, and
`cancelServer` the `cancel()` call in once mode. -/
inductive Event where
  | httpError (code : Nat) (msg : String)
  | enter (num : Int)
  | logConnected (num : Int)
  | upgrade
  | factoryNewCall (params : List (String × String))
  | slaveClose
  | runCalled
  | connClose
  | leave (num : Int)
  | logClosed (reason : String) (addr : String)
  | cancelServer
  deriving DecidableEq, Repr

/-- The server options consulted by `generateHandleWS` / `processWSConn`. -/
structure Options where
  once : Bool
  maxConnection : Int
  enableBasicAuth : Bool
  credential : String
  permitArguments : Bool
  deriving Repr

/-- The parts of the HTTP request read by the handler: the method, the `auth`
query parameter (empty when absent, as `Query().Get` returns), the
`Authorization` header, and the remote address. -/
structure Request where
  method : String
  authQuery : String
  authHeader : String
  remoteAddr : String
  deriving DecidableEq, Repr

/-- Environment of `processWSConn`: the outcome of `conn.ReadMessage`
(`none` is a read error, otherwise frame type and payload), the behavior of
`json.Unmarshal` into `InitMessage`, of `base64.StdEncoding.DecodeString`, of
`url.Parse` composed with `.Query()` (`none` is a parse error), whether
`server.factory.New` succeeds on given parameters, the outcome of
`titleTemplate.Execute` (`none` is a template error), whether `webtty.New`
succeeds, and the error returned by `tty.Run`. -/
structure ProcEnv where
  readMsg : Option (WSFrameType × String)
  parseInit : String → Option InitMessage
  b64 : String → Option String
  urlParse : String → Option (List (String × String))
  factoryNew : List (String × String) → Bool
  titleExec : Option String
  webttyNew : Bool
  runResult : GoErr

/-- Environment of the outer handler: base64 decoding, the outcome of
`upgrader.Upgrade` and its error message on failure, whether the server
context is canceled when the result of `processWSConn` is inspected,
`server.factory.Name()`, and the environment for `processWSConn`. -/
structure HandlerEnv where
  b64 : String → Option String
  upgradeOk : Bool
  upgradeErrMsg : String
  ctxCanceled : Bool
  factoryName : String
  proc : ProcEnv

/-- Shared server state: the once flag (an `int64` used with
compare-and-swap) and the active-connection count.  Modelled from the spec:
the count is the Admission Controller's monotonic count of active sessions. -/
structure SrvState where
  onceFlag : Int
  count : Int
  deriving DecidableEq, Repr

/-- Split a character list at its first space, if any. -/
def splitFirstSpace : List Char → Option (List Char × List Char)
  | [] => none
  | c :: rest =>
    if c = ' ' then some ([], rest)
    else
      match splitFirstSpace rest with
      | none => none
      | some (a, b) => some (c :: a, b)

/-- Go `strings.SplitN(s, " ", 2)`: at most two pieces, split at the first
space. -/
def goSplitN2Space (s : String) : List String :=
  match splitFirstSpace s.data with
  | none => [s]
  | some (a, b) => [String.mk a, String.mk b]

/-- Go `strings.ToLower` restricted to the ASCII range used here. -/
def goToLower (s : String) : String := s.map Char.toLower

/-- The HTTP-level basic-auth check of `generateHandleWS` (lines 71 to 109):
prefer the base64 `auth` query parameter; otherwise require a
`Basic <base64>` Authorization header; in both cases the decoded payload must
equal the configured credential. -/
def httpAuthPass (opts : Options) (b64 : String → Option String) (req : Request) : Bool :=
  if req.authQuery ≠ "" then
    match b64 req.authQuery with
    | none => false
    | some payload => opts.credential == payload
  else
    match goSplitN2Space req.authHeader with
    | [t0, t1] =>
      if goToLower t0 ≠ "basic" then false
      else
        match b64 t1 with
        | none => false
        | some payload => opts.credential == payload
    | _ => false

/-- The query string chosen on lines 160 to 163: the client arguments only
when `PermitArguments` is set and they are nonempty, otherwise the empty
query. -/
def queryPathOf (opts : Options) (init : InitMessage) : String :=
  if opts.permitArguments ∧ init.arguments ≠ "" then init.arguments else "?"

/-- Lines 152 to 216 of `processWSConn`, after the init message has been
unmarshalled: decode and check the base64 auth token, choose the query string
(the client arguments only when `PermitArguments` is set and they are
nonempty, else the empty query), parse it, create the backend through
`server.factory.New`, expand the window title template, build the webtty, and
run it.  The deferred `slave.Close()` fires on every path after the factory
call succeeded. -/
def processAfterInit (opts : Options) (env : ProcEnv) (init : InitMessage) :
    GoErr × List Event :=
  match env.b64 init.authToken with
  | none => (GoErr.other "failed to authenticate websocket connection", [])
  | some decoded =>
    if decoded ≠ opts.credential then
      (GoErr.other "failed to authenticate websocket connection", [])
    else
      match env.urlParse (queryPathOf opts init) with
      | none => (GoErr.other "failed to parse arguments", [])
      | some params =>
        if env.factoryNew params = false then
          (GoErr.other "failed to create backend", [Event.factoryNewCall params])
        else
          match env.titleExec with
          | none =>
            (GoErr.other "failed to fill window title template",
             [Event.factoryNewCall params, Event.slaveClose])
          | some _ =>
            if env.webttyNew = false then
              (GoErr.other "failed to create webtty",
               [Event.factoryNewCall params, Event.slaveClose])
            else
              (env.runResult,
               [Event.factoryNewCall params, Event.runCalled, Event.slaveClose])

/-- The whole of `processWSConn` (lines 137 to 217): read one websocket
message, require a text frame, unmarshal the init message, then continue with
`processAfterInit`. -/
def processWSConn (opts : Options) (env : ProcEnv) : GoErr × List Event :=
  match env.readMsg with
  | none => (GoErr.other "failed to authenticate websocket connection", [])
  | some (typ, initLine) =>
    if typ ≠ WSFrameType.text then
      (GoErr.other "failed to authenticate websocket connection: invalid message type", [])
    else
      match env.parseInit initLine with
      | none => (GoErr.other "failed to authenticate websocket connection", [])
      | some init => processAfterInit opts env init

/-- The value of `ctx.Err()`. -/
def ctxErr (canceled : Bool) : GoErr :=
  if canceled then GoErr.canceled else GoErr.nil

/-- The message carried by a Go error value (used by the default branch's
format string). -/
def goErrMsg : GoErr → String
  | GoErr.nil => "nil"
  | GoErr.canceled => "context canceled"
  | GoErr.slaveClosed => "slave closed"
  | GoErr.masterClosed => "master closed"
  | GoErr.other m => m

/-- The `switch err` statement of lines 124 to 133 mapping the result of
`processWSConn` to the logged close reason. -/
def closeReasonOf (canceled : Bool) (factoryName : String) (err : GoErr) : String :=
  if err = ctxErr canceled then "cancelation"
  else
    match err with
    | GoErr.slaveClosed => factoryName
    | GoErr.masterClosed => "client"
    | e => "an error: " ++ goErrMsg e

/-- The body of the handler between `counter.add(1)` and the deferred block
(lines 56 to 133): the max-connection gate, the connected log line, the method
check, the basic-auth check, the websocket upgrade, and the session run;
returns the final `closeReason` and the trace of the body. -/
def handleWSBody (opts : Options) (env : HandlerEnv) (req : Request) (num : Int) :
    String × List Event :=
  if opts.maxConnection ≠ 0 ∧ num > opts.maxConnection then
    ("exceeding max number of connections", [])
  else if req.method ≠ "GET" then
    ("unknown reason", [Event.logConnected num, Event.httpError 405 "Method not allowed"])
  else if opts.enableBasicAuth ∧ httpAuthPass opts env.b64 req = false then
    ("unknown reason", [Event.logConnected num, Event.httpError 401 "Unauthorized"])
  else if env.upgradeOk = false then
    (env.upgradeErrMsg, [Event.logConnected num])
  else
    let pr := processWSConn opts env.proc
    (closeReasonOf env.ctxCanceled env.factoryName pr.1,
     [Event.logConnected num, Event.upgrade] ++ pr.2 ++ [Event.connClose])

/-- One invocation of the handler returned by `generateHandleWS` (lines 32 to
134): the once-mode compare-and-swap gate, `counter.add(1)`, the body, and the
deferred block performing `counter.done()`, the close log line, and in once
mode `cancel()`.  Returns the updated shared state and the event trace. -/
def handleWS (opts : Options) (env : HandlerEnv) (req : Request) (st : SrvState) :
    SrvState × List Event :=
  if opts.once && st.onceFlag != 0 then
    (st, [Event.httpError 503 "Server is shutting down"])
  else
    let st1 : SrvState := if opts.once then { st with onceFlag := 1 } else st
    let num := st1.count + 1
    let body := handleWSBody opts env req num
    let stOut : SrvState := { st1 with count := num - 1 }
    (stOut,
     Event.enter num :: body.2 ++
       [Event.leave (num - 1), Event.logClosed body.1 req.remoteAddr] ++
       (if opts.once then [Event.cancelServer] else []))

/-- A sequence of handler invocations processed one after the other against
the shared state, returning the final state and each invocation's trace. -/
def runSeq (opts : Options) (attempts : List (HandlerEnv × Request)) (st : SrvState) :
    SrvState × List (List Event) :=
  match attempts with
  | [] => (st, [])
  | a :: rest =>
    let r := handleWS opts a.1 a.2 st
    let rr := runSeq opts rest r.1
    (rr.1, r.2 :: rr.2)

/-- Recognizer for `enter` events. -/
def isEnter : Event → Bool
  | Event.enter _ => true
  | _ => false

/-- Recognizer for `leave` events. -/
def isLeave : Event → Bool
  | Event.leave _ => true
  | _ => false

/-- Recognizer for `factoryNewCall` events. -/
def isFactoryCall : Event → Bool
  | Event.factoryNewCall _ => true
  | _ => false

/-- Recognizer for `logClosed` events. -/
def isLogClosed : Event → Bool
  | Event.logClosed _ _ => true
  | _ => false

/-- Recognizer for the HTTP 503 rejection of once mode. -/
def isReject503 : Event → Bool
  | Event.httpError 503 _ => true
  | _ => false

/-- Events belonging to a running session's teardown: the call to `tty.Run`
and the closing of the two transports. -/
def isRunOrClose : Event → Bool
  | Event.runCalled => true
  | Event.slaveClose => true
  | Event.connClose => true
  | _ => false

/-- Events that touch the shared counter or emit the close log line or the
once-mode 503 rejection; no event of the handler body (between the counter
increment and the deferred block) is of this kind. -/
def isCounterOrLog (e : Event) : Bool :=
  isEnter e || isLeave e || isLogClosed e || isReject503 e

/-- The outer once-mode gate admits this invocation (the compare-and-swap of
the once flag succeeds, or once mode is off). -/
def onceGatePass (opts : Options) (st : SrvState) : Bool :=
  !(opts.once && st.onceFlag != 0)

/-- The init-message credential check of `processWSConn` succeeds: a text
frame is read, it unmarshals, and its base64 auth token decodes to the
configured credential. -/
def initAuthOk (opts : Options) (env : ProcEnv) : Bool :=
  match env.readMsg with
  | some (WSFrameType.text, line) =>
    match env.parseInit line with
    | some init =>
      match env.b64 init.authToken with
      | some decoded => decoded == opts.credential
      | none => false
    | none => false
  | _ => false

/-- Erase the close reason of a close log event, keeping the remote address;
used to state that two traces agree except for the logged reason. -/
def eraseReason : Event → Event
  | Event.logClosed _ addr => Event.logClosed "" addr
  | e => e

/-- The same handler environment with the result of `tty.Run` replaced. -/
def envWithRun (env : HandlerEnv) (e : GoErr) : HandlerEnv :=
  { env with proc := { env.proc with runResult := e } }

/-- A fully successful `processWSConn` environment used to instantiate the
theorems about the handler at concrete inputs. -/
def sampleProc : ProcEnv :=
  { readMsg := some (WSFrameType.text, "init")
    parseInit := fun _ => some { authToken := "dG9r", arguments := "arg=1" }
    b64 := fun _ => some "secret"
    urlParse := fun _ => some [("arg", "1")]
    factoryNew := fun _ => true
    titleExec := some "GoTTY"
    webttyNew := true
    runResult := GoErr.slaveClosed }

/-- A handler environment whose handshake and upgrade succeed. -/
def sampleEnv : HandlerEnv :=
  { b64 := fun _ => some "secret"
    upgradeOk := true
    upgradeErrMsg := ""
    ctxCanceled := false
    factoryName := "local command"
    proc := sampleProc }

/-- Concrete server options with a maximum of 10 connections. -/
def sampleOpts : Options :=
  { once := false
    maxConnection := 10
    enableBasicAuth := false
    credential := "secret"
    permitArguments := true }

/-- Concrete server options in once mode. -/
def sampleOnceOpts : Options :=
  { sampleOpts with once := true }

/-- Concrete server options with basic authentication enabled. -/
def sampleAuthOpts : Options :=
  { sampleOpts with enableBasicAuth := true }

/-- Concrete server options with argument passthrough disabled. -/
def noArgsOpts : Options :=
  { sampleOpts with permitArguments := false }

/-- A concrete GET request with no credentials attached. -/
def sampleReq : Request :=
  { method := "GET"
    authQuery := ""
    authHeader := ""
    remoteAddr := "127.0.0.1:50000" }

/-- The initial shared state: once flag unset, no active connections. -/
def sampleState : SrvState :=
  { onceFlag := 0, count := 0 }

/-- A `processWSConn` environment whose handshake succeeds but whose window
title template fails to execute. -/
def titleFailProc : ProcEnv :=
  { sampleProc with titleExec := none }

/-- A `processWSConn` environment whose base64 decoding always fails, so the
init-message credential check cannot pass. -/
def noB64Proc : ProcEnv :=
  { sampleProc with b64 := fun _ => none }

/-- A `processWSConn` environment whose initial websocket read fails. -/
def readFailProc : ProcEnv :=
  { sampleProc with readMsg := none }

/-- A request carrying a nonempty `auth` query parameter. -/
def badAuthReq : Request :=
  { sampleReq with authQuery := "Zm9v" }

/-- A concrete init message with a token and a nonempty argument string. -/
def sampleInit : InitMessage :=
  { authToken := "dG9r", arguments := "arg=1" }

/-- A handler environment whose base64 decoding always fails. -/
def badB64Env : HandlerEnv :=
  { sampleEnv with b64 := fun _ => none }

/-! ## File-manager path handling (server/file_handler.go)

Paths are processed at the level of their character lists; the element view
of a slash-separated path and Go's lexical `filepath.Clean` algorithm are
embedded structurally so that every function evaluates by reduction. -/

/-- Split a character list on the path separator (like Go `strings.Split` on
"/": splitting the empty list gives one empty element). -/
def splitSlash : List Char → List (List Char)
  | [] => [[]]
  | c :: rest =>
    if c = '/' then [] :: splitSlash rest
    else
      match splitSlash rest with
      | [] => [[c]]
      | e :: es => (c :: e) :: es

/-- Join path elements with the separator. -/
def joinSlash : List (List Char) → List Char
  | [] => []
  | [e] => e
  | e :: es => e ++ '/' :: joinSlash es

/-- One step of the element pass of Go `filepath.Clean`: empty and "."
elements are dropped; ".." pops a preceding normal element, cannot back up
past the root, and accumulates at the start of a relative path; any other
element is pushed.  The stack holds the output elements in reverse. -/
def cleanStep (rooted : Bool) (stack : List (List Char)) (e : List Char) :
    List (List Char) :=
  if e = [] ∨ e = ['.'] then stack
  else if e = ['.', '.'] then
    match stack with
    | [] => if rooted then [] else [['.', '.']]
    | top :: rest => if top = ['.', '.'] then e :: stack else rest
  else e :: stack

/-- The element pass of Go `filepath.Clean`, yielding the output elements in
order. -/
def cleanElems (rooted : Bool) (es : List (List Char)) : List (List Char) :=
  (es.foldl (cleanStep rooted) []).reverse

/-- Whether a path is rooted (absolute). -/
def isRooted : List Char → Bool
  | [] => false
  | c :: _ => c == '/'

/-- Reassemble the cleaned elements: restore the leading separator of a
rooted path, and represent the empty relative path as ".". -/
def assemble (rooted : Bool) (out : List Char) : List Char :=
  if rooted then '/' :: out
  else if out = [] then ['.'] else out

/-- Go `path/filepath.Clean` on Unix, on character lists: the shortest
lexically equivalent path. -/
def goCleanData (p : List Char) : List Char :=
  assemble (isRooted p) (joinSlash (cleanElems (isRooted p) (splitSlash p)))

/-- Go `path/filepath.Clean` on strings. -/
def goClean (s : String) : String := String.mk (goCleanData s.data)

/-- Whether one character list is a prefix of another. -/
def listPrefix : List Char → List Char → Bool
  | [], _ => true
  | _ :: _, [] => false
  | a :: as, b :: bs => a == b && listPrefix as bs

/-- Go `strings.HasPrefix`. -/
def goStartsWith (s pre : String) : Bool := listPrefix pre.data s.data

/-- Go `filepath.Join` of two parts: empty parts are skipped, the rest are
joined with the separator, and the result is cleaned. -/
def goJoin (a b : String) : String :=
  if a = "" then
    if b = "" then "" else goClean b
  else goClean (a ++ "/" ++ b)

/-- The path sanitization shared verbatim by handleFileUpload (lines 44 to
49), handleChunkUpload (lines 185 to 190), handleFileDownload (lines 315 to
320), handleFileList (lines 521 to 526) and handleFileDelete (lines 610 to
615): clean the client-supplied path and reject the request with a 400 error
when the cleaned path begins with ".."; returns the cleaned path when
accepted. -/
def sanitizePath (p : String) : Option String :=
  if goStartsWith (goClean p) ".." then none else some (goClean p)

/-- Scan a reversed character list for the extension: stop empty at a
separator, return from the last dot otherwise. -/
def extScan : List Char → List Char → List Char
  | [], _ => []
  | c :: rest, acc =>
    if c = '/' then []
    else if c = '.' then '.' :: acc
    else extScan rest (c :: acc)

/-- Go `filepath.Ext`: the suffix of the last element starting at its final
dot, or empty. -/
def goExt (s : String) : String := String.mk (extScan s.data.reverse [])

/-- Go `filepath.Base`: empty gives ".", all-separators gives "/", otherwise
the last element after trailing separators are removed. -/
def goBase (s : String) : String :=
  if s.data = [] then "."
  else
    let l1 := (s.data.reverse.dropWhile (fun c => c = '/')).reverse
    if l1 = [] then "/"
    else String.mk ((l1.reverse.takeWhile (fun c => c ≠ '/')).reverse)

/-- Go `filepath.Dir`: everything before the final element, cleaned. -/
def goDir (s : String) : String :=
  String.mk (goCleanData ((s.data.reverse.dropWhile (fun c => c ≠ '/')).reverse))

/-- Go `strings.TrimSuffix`. -/
def goTrimSuffix (s suf : String) : String :=
  if listPrefix suf.data.reverse s.data.reverse then
    String.mk (s.data.take (s.data.length - suf.data.length))
  else s

/-- A normal output element of the clean pass: nonempty, not a dot element,
and free of separators. -/
def goodElem (e : List Char) : Prop :=
  e ≠ [] ∧ e ≠ ['.'] ∧ e ≠ ['.', '.'] ∧ '/' ∉ e

/-- Invariant of the clean pass stack: some normal elements on top of a run
of ".." elements, and no ".." at all when the path is rooted. -/
def CleanStack (rooted : Bool) (s : List (List Char)) : Prop :=
  ∃ ns ds, s = ns ++ ds ∧ (∀ e ∈ ns, goodElem e) ∧
    (∀ e ∈ ds, e = ['.', '.']) ∧ (rooted = true → ds = [])

/-- The decimal digit character of a value below ten. -/
def digitChar (d : Nat) : Char := Char.ofNat (48 + d)

/-- Decimal digits of a number, with explicit fuel so that the function is
structurally recursive and evaluates by reduction. -/
def natDigitsAux : Nat → Nat → List Char
  | 0, _ => []
  | fuel + 1, n =>
    if n < 10 then [digitChar n]
    else natDigitsAux fuel (n / 10) ++ [digitChar (n % 10)]

/-- Go `fmt.Sprintf` of a natural number with verb `%d`. -/
def natStr (n : Nat) : String := String.mk (natDigitsAux (n + 1) n)

/-- The numeric value of a digit string, for reading `natStr` back. -/
def digitsVal (l : List Char) : Nat :=
  l.foldl (fun a c => 10 * a + (c.toNat - 48)) 0

/-- The i-th candidate path of the unique-name loops of handleFileUpload
(line 108) and handleChunkUpload (line 245):
`filepath.Join(dir, fmt.Sprintf("%s_%d%s", name, i, ext))`. -/
def candPath (dir name ext : String) (i : Nat) : String :=
  goJoin dir (name ++ "_" ++ natStr i ++ ext)

/-- Bounded search for the first index at or after `i` whose candidate is
not an existing path; mirrors the `for i := 1; ; i++` loops, with enough
fuel that the loop always terminates on a finite file system. -/
def findFreshAux (paths : List String) (cand : Nat → String) :
    Nat → Nat → Nat
  | 0, i => i
  | fuel + 1, i => if cand i ∈ paths then findFreshAux paths cand fuel (i + 1) else i

/-- The index selected by the unique-name loop starting at 1. -/
def uniqueIdx (paths : List String) (dir name ext : String) : Nat :=
  findFreshAux paths (candPath dir name ext) (paths.length + 1) 1

/-- The file system visible to the upload handlers: an association list from
paths to file contents, most recent write first. -/
structure FileSys where
  entries : List (String × String)

/-- The existing paths of the file system. -/
def fsKeys (fs : FileSys) : List String := fs.entries.map Prod.fst

/-- Whether `os.Stat` finds the path (`err == nil`). -/
def fsMem (fs : FileSys) (p : String) : Bool := fs.entries.any (fun kv => kv.1 == p)

/-- The contents of the file at a path, if present. -/
def fsGet (fs : FileSys) (p : String) : Option String :=
  (fs.entries.find? (fun kv => kv.1 == p)).map Prod.snd

/-- `os.Create` plus `io.Copy`: write contents at a path. -/
def fsWrite (fs : FileSys) (p v : String) : FileSys :=
  ⟨(p, v) :: fs.entries⟩

/-- The destination selected by handleFileUpload lines 102 to 113 for one
file: the joined path itself when it does not exist yet, otherwise the first
fresh `name_i.ext` candidate, with `ext`, `name` and `dir` derived as in
lines 104 to 106. -/
def uploadDest (fs : FileSys) (filePath relativePath : String) : String :=
  if fsMem fs filePath then
    candPath (goDir filePath) (goTrimSuffix (goBase relativePath) (goExt relativePath))
      (goExt relativePath)
      (uniqueIdx (fsKeys fs) (goDir filePath)
        (goTrimSuffix (goBase relativePath) (goExt relativePath)) (goExt relativePath))
  else filePath

/-- One file of handleFileUpload (lines 92 to 132): pick the destination and
write the uploaded contents there. -/
def uploadOne (fs : FileSys) (filePath relativePath content : String) :
    FileSys × String :=
  (fsWrite fs (uploadDest fs filePath relativePath) content,
   uploadDest fs filePath relativePath)

/-- The final destination of the chunked-upload merge, handleChunkUpload
lines 238 to 250: the joined path when free, else the first fresh candidate
directly under the target directory. -/
def chunkMergeDest (fs : FileSys) (fullTargetPath filename : String) : String :=
  if fsMem fs (goJoin fullTargetPath filename) then
    candPath fullTargetPath (goTrimSuffix filename (goExt filename)) (goExt filename)
      (uniqueIdx (fsKeys fs) fullTargetPath
        (goTrimSuffix filename (goExt filename)) (goExt filename))
  else goJoin fullTargetPath filename

end Gotty

namespace Gotty

/-! ## Theorems about the wire-protocol tags -/

/-- C8: the wire-protocol tag constants equal exactly the values the spec
assigns — client-to-server "0" unknown, "1" input, "2" ping, "3"
resize-terminal, "4" set-encoding; server-to-client "0" unknown, "1" output,
"2" pong, "3" set-window-title, "4" set-preferences, "5" set-reconnect, "6"
set-buffer-size — and within each direction the declared tag space is exactly
these values. -/
theorem wire_tags_correct :
    msgInputUnknown = "0" ∧ msgInput = "1" ∧ msgPing = "2" ∧
    msgResizeTerminal = "3" ∧ msgSetEncoding = "4" ∧
    msgUnknownOutput = "0" ∧ msgOutput = "1" ∧ msgPong = "2" ∧
    msgSetWindowTitle = "3" ∧ msgSetPreferences = "4" ∧
    msgSetReconnect = "5" ∧ msgSetBufferSize = "6" ∧
    clientTags = ["0", "1", "2", "3", "4"] ∧
    serverTags = ["0", "1", "2", "3", "4", "5", "6"] := by
  refine ⟨rfl, rfl, rfl, rfl, rfl, rfl, rfl, rfl, rfl, rfl, rfl, rfl, rfl, rfl⟩

/-! ## Helper lemmas about the handler trace -/

/-- Every event emitted by `processAfterInit` is a factory call, a run, or a
transport close; in particular it never touches the counter, never logs a
close reason, and never emits the 503 rejection. -/
theorem processAfterInit_all_plain (opts : Options) (env : ProcEnv) (init : InitMessage) :
    ((processAfterInit opts env init).2.all fun e => !(isCounterOrLog e)) = true := by
  unfold processAfterInit
  repeat' split
  all_goals rfl

/-- Every event emitted by `processWSConn` is plain in the sense of
`isCounterOrLog`. -/
theorem processWSConn_all_plain (opts : Options) (env : ProcEnv) :
    ((processWSConn opts env).2.all fun e => !(isCounterOrLog e)) = true := by
  unfold processWSConn
  repeat' split
  · rfl
  · rfl
  · rfl
  · exact processAfterInit_all_plain opts env _

/-- Every event emitted by the handler body is plain: the body never touches
the counter, never logs the close reason, and never emits the once-mode 503
rejection. -/
theorem handleWSBody_all_plain (opts : Options) (env : HandlerEnv) (req : Request)
    (num : Int) :
    ((handleWSBody opts env req num).2.all fun e => !(isCounterOrLog e)) = true := by
  unfold handleWSBody
  repeat' split
  · rfl
  · rfl
  · rfl
  · rfl
  · simp only [List.all_append, List.all_cons, List.all_nil,
      processWSConn_all_plain opts env.proc]
    rfl

/-- Membership form of `handleWSBody_all_plain`. -/
theorem handleWSBody_events_plain (opts : Options) (env : HandlerEnv) (req : Request)
    (num : Int) :
    ∀ e ∈ (handleWSBody opts env req num).2, isCounterOrLog e = false := by
  intro e he
  have h := List.all_eq_true.mp (handleWSBody_all_plain opts env req num) e he
  simpa using h

/-- A passing once gate means the compare-and-swap condition of the handler
is false. -/
theorem onceGatePass_cond (opts : Options) (st : SrvState)
    (hgate : onceGatePass opts st = true) :
    (opts.once && st.onceFlag != 0) = false := by
  unfold onceGatePass at hgate
  cases hb : (opts.once && st.onceFlag != 0)
  · rfl
  · rw [hb] at hgate
    exact absurd hgate (by decide)

/-- Under a passing once gate, the handler trace is the counter increment,
the body trace, the deferred decrement and close log, and in once mode the
cancel call. -/
theorem handleWS_trace_shape (opts : Options) (env : HandlerEnv) (req : Request)
    (st : SrvState) (hgate : onceGatePass opts st = true) :
    (handleWS opts env req st).2 =
      Event.enter (st.count + 1) :: (handleWSBody opts env req (st.count + 1)).2 ++
        [Event.leave st.count,
         Event.logClosed (handleWSBody opts env req (st.count + 1)).1 req.remoteAddr] ++
        (if opts.once then [Event.cancelServer] else []) := by
  unfold handleWS
  rw [onceGatePass_cond opts st hgate]
  cases hO : opts.once <;> simp [hO, Int.add_sub_cancel]

/-- Under a passing once gate, the deferred `counter.done()` restores the
count: the final count equals the initial one. -/
theorem handleWS_count_final (opts : Options) (env : HandlerEnv) (req : Request)
    (st : SrvState) (hgate : onceGatePass opts st = true) :
    (handleWS opts env req st).1.count = st.count := by
  unfold handleWS
  rw [onceGatePass_cond opts st hgate]
  cases hO : opts.once <;> simp [hO, Int.add_sub_cancel]

/-- In once mode, an admitted invocation leaves the once flag set to 1. -/
theorem handleWS_onceFlag_final (opts : Options) (env : HandlerEnv) (req : Request)
    (st : SrvState) (honce : opts.once = true) (hgate : onceGatePass opts st = true) :
    (handleWS opts env req st).1.onceFlag = 1 := by
  unfold handleWS
  rw [onceGatePass_cond opts st hgate]
  simp [honce]

/-- Unpacking `isCounterOrLog e = false` into its four components. -/
theorem plain_components {e : Event} (h : isCounterOrLog e = false) :
    isEnter e = false ∧ isLeave e = false ∧ isLogClosed e = false ∧
      isReject503 e = false := by
  unfold isCounterOrLog at h
  simp only [Bool.or_eq_false_iff] at h
  exact ⟨h.1.1.1, h.1.1.2, h.1.2, h.2⟩

/-- The handler body contributes nothing to any of the counter-or-log
counts. -/
theorem handleWSBody_countP_zero (opts : Options) (env : HandlerEnv) (req : Request)
    (num : Int) (p : Event → Bool) (hp : ∀ e, isCounterOrLog e = false → p e = false) :
    (handleWSBody opts env req num).2.countP p = 0 := by
  refine List.countP_eq_zero.mpr ?_
  intro e he
  simp [hp e (handleWSBody_events_plain opts env req num e he)]

/-- Dropping while not-a-leave walks through a leave-free prefix and stops
exactly at the first `leave`. -/
theorem dropWhile_to_leave (l1 : List Event) (h : ∀ e ∈ l1, isLeave e = false)
    (n : Int) (l2 : List Event) :
    (l1 ++ Event.leave n :: l2).dropWhile (fun e => !(isLeave e)) =
      Event.leave n :: l2 := by
  induction l1 with
  | nil => simp [List.dropWhile_cons, isLeave]
  | cons a l ih =>
    have ha := h a (List.mem_cons_self a l)
    simp only [List.cons_append, List.dropWhile_cons, ha, Bool.not_false, if_true]
    exact ih (fun e he => h e (List.mem_cons_of_mem a he))

/-! ## Claims C1 and C2: admission limit and counter balance -/

/-- C1: with a configured maximum `N > 0` and the once gate passing, an
invocation whose counter increment exceeds `N` performs no websocket upgrade
and no `server.factory.New` call and its deferred decrement restores the
count; and an invocation whose increment is at most `N` is admitted past the
gate (the "New client connected" log line is reached). -/
theorem max_connection_admission (opts : Options) (env : HandlerEnv) (req : Request)
    (st : SrvState) (hmax : 0 < opts.maxConnection)
    (hgate : onceGatePass opts st = true) :
    (st.count + 1 > opts.maxConnection →
      (handleWS opts env req st).2.countP isFactoryCall = 0 ∧
      Event.upgrade ∉ (handleWS opts env req st).2 ∧
      (handleWS opts env req st).1.count = st.count) ∧
    (st.count + 1 ≤ opts.maxConnection →
      Event.logConnected (st.count + 1) ∈ (handleWS opts env req st).2) := by
  constructor
  · intro hgt
    have hbody : handleWSBody opts env req (st.count + 1) =
        ("exceeding max number of connections", []) := by
      unfold handleWSBody
      rw [if_pos ⟨(by omega : opts.maxConnection ≠ 0), hgt⟩]
    refine ⟨?_, ?_, handleWS_count_final opts env req st hgate⟩
    · rw [handleWS_trace_shape opts env req st hgate, hbody]
      cases hO : opts.once <;> simp [hO, isFactoryCall]
    · rw [handleWS_trace_shape opts env req st hgate, hbody]
      cases hO : opts.once <;> simp [hO]
  · intro hle
    rw [handleWS_trace_shape opts env req st hgate]
    have hmem : Event.logConnected (st.count + 1) ∈
        (handleWSBody opts env req (st.count + 1)).2 := by
      unfold handleWSBody
      rw [if_neg (fun hc => absurd hc.2 (by omega))]
      repeat' split
      all_goals simp
    simp [hmem]

/-- C1 witness: with max 10 connections, the 11th enter is rejected without
an upgrade or factory call and the count is restored, while a connection
incrementing the count to 1 is admitted. -/
theorem max_connection_admission_witness :
    ((handleWS sampleOpts sampleEnv sampleReq { onceFlag := 0, count := 10 }).2.countP
        isFactoryCall = 0 ∧
      Event.upgrade ∉ (handleWS sampleOpts sampleEnv sampleReq
        { onceFlag := 0, count := 10 }).2 ∧
      (handleWS sampleOpts sampleEnv sampleReq { onceFlag := 0, count := 10 }).1.count
        = 10) ∧
    Event.logConnected 1 ∈ (handleWS sampleOpts sampleEnv sampleReq sampleState).2 :=
  ⟨(max_connection_admission sampleOpts sampleEnv sampleReq
      { onceFlag := 0, count := 10 } (by decide) (by decide)).1 (by decide),
   (max_connection_admission sampleOpts sampleEnv sampleReq sampleState
      (by decide) (by decide)).2 (by decide)⟩

/-- C2: any invocation passing the once gate increments the counter exactly
once (as its very first action) and decrements it exactly once, and every
run or transport-close event precedes the decrement: the suffix of the trace
from the first `leave` onward contains no run or close events. -/
theorem counter_adjusted_once (opts : Options) (env : HandlerEnv) (req : Request)
    (st : SrvState) (hgate : onceGatePass opts st = true) :
    (handleWS opts env req st).2.countP isEnter = 1 ∧
    (handleWS opts env req st).2.countP isLeave = 1 ∧
    (handleWS opts env req st).2.head? = some (Event.enter (st.count + 1)) ∧
    ∀ e ∈ (handleWS opts env req st).2.dropWhile (fun e => !(isLeave e)),
      isRunOrClose e = false := by
  rw [handleWS_trace_shape opts env req st hgate]
  have henter := handleWSBody_countP_zero opts env req (st.count + 1) isEnter
    (fun e he => (plain_components he).1)
  have hleave := handleWSBody_countP_zero opts env req (st.count + 1) isLeave
    (fun e he => (plain_components he).2.1)
  refine ⟨?_, ?_, ?_, ?_⟩
  · cases hO : opts.once <;>
      simp [hO, List.countP_cons, List.countP_append, henter, isEnter, isLeave,
        isLogClosed]
  · cases hO : opts.once <;>
      simp [hO, List.countP_cons, List.countP_append, hleave, isEnter, isLeave,
        isLogClosed]
  · rfl
  · intro e he
    simp only [List.cons_append, List.append_assoc] at he
    rw [List.dropWhile_cons] at he
    rw [if_pos (show (!(isLeave (Event.enter (st.count + 1)))) = true from rfl)] at he
    have hnl : ∀ x ∈ (handleWSBody opts env req (st.count + 1)).2, isLeave x = false :=
      fun x hx => (plain_components (handleWSBody_events_plain opts env req
        (st.count + 1) x hx)).2.1
    rw [dropWhile_to_leave _ hnl] at he
    rcases List.mem_cons.mp he with h | he
    · subst h; rfl
    rcases List.mem_cons.mp he with h | he
    · subst h; rfl
    cases hO : opts.once <;> rw [hO] at he <;> simp at he
    subst he; rfl

/-- With once mode active and the flag already set, every further attempt is
answered by the 503 rejection alone and the state is unchanged. -/
theorem runSeq_all_rejected (opts : Options) (l : List (HandlerEnv × Request))
    (st : SrvState) (honce : opts.once = true) (hflag : st.onceFlag ≠ 0) :
    runSeq opts l st =
      (st, l.map fun _ => [Event.httpError 503 "Server is shutting down"]) := by
  induction l with
  | nil => rfl
  | cons a rest ih =>
    have hws : handleWS opts a.1 a.2 st =
        (st, [Event.httpError 503 "Server is shutting down"]) := by
      unfold handleWS
      rw [if_pos (by simp [honce, bne_iff_ne, hflag])]
    simp only [runSeq, hws, ih, List.map_cons]

/-- C3: in once mode starting from an unset flag, over any nonempty sequence
of connection attempts exactly one attempt proceeds (its trace carries no 503
rejection), every other attempt is answered by exactly the HTTP 503 response
with the counter untouched, and the once flag ends (and hence stays) set. -/
theorem once_single_admission (opts : Options)
    (attempts : List (HandlerEnv × Request)) (st : SrvState)
    (honce : opts.once = true) (hflag : st.onceFlag = 0) (hne : attempts ≠ []) :
    (runSeq opts attempts st).2.countP
        (fun tr => tr.countP isReject503 == 0) = 1 ∧
    ((runSeq opts attempts st).2.tail.all
      (fun tr => tr == [Event.httpError 503 "Server is shutting down"])) = true ∧
    (runSeq opts attempts st).1.onceFlag = 1 := by
  obtain ⟨a, rest, rfl⟩ : ∃ a rest, attempts = a :: rest := by
    cases attempts with
    | nil => exact absurd rfl hne
    | cons a rest => exact ⟨a, rest, rfl⟩
  have hgate : onceGatePass opts st = true := by
    simp [onceGatePass, hflag]
  have hst1 : (handleWS opts a.1 a.2 st).1.onceFlag = 1 :=
    handleWS_onceFlag_final opts a.1 a.2 st honce hgate
  have hrest := runSeq_all_rejected opts rest (handleWS opts a.1 a.2 st).1 honce
    (by rw [hst1]; exact one_ne_zero)
  have hseq : runSeq opts (a :: rest) st =
      ((handleWS opts a.1 a.2 st).1,
        (handleWS opts a.1 a.2 st).2 ::
          rest.map fun _ => [Event.httpError 503 "Server is shutting down"]) := by
    simp only [runSeq, hrest]
  have hhead : (handleWS opts a.1 a.2 st).2.countP isReject503 = 0 := by
    rw [handleWS_trace_shape opts a.1 a.2 st hgate]
    have hz := handleWSBody_countP_zero opts a.1 a.2 (st.count + 1) isReject503
      (fun e he => (plain_components he).2.2.2)
    simp [honce, List.countP_cons, List.countP_append, hz, isReject503]
  refine ⟨?_, ?_, ?_⟩
  · rw [hseq]
    simp only [List.countP_cons, hhead]
    have hzero : (rest.map fun _ =>
        [Event.httpError 503 "Server is shutting down"]).countP
          (fun tr => tr.countP isReject503 == 0) = 0 := by
      refine List.countP_eq_zero.mpr ?_
      intro tr htr
      rcases List.mem_map.mp htr with ⟨x, hx, rfl⟩
      decide
    rw [hzero]
    decide
  · rw [hseq]
    simp only [List.tail_cons, List.all_eq_true]
    intro tr htr
    rcases List.mem_map.mp htr with ⟨x, hx, rfl⟩
    decide
  · rw [hseq, hst1]

/-- C3 witness: two attempts in once mode — the first is handled, the second
receives exactly the 503 rejection, and the flag ends set. -/
theorem once_single_admission_witness :
    (runSeq sampleOnceOpts [(sampleEnv, sampleReq), (sampleEnv, sampleReq)]
        sampleState).2.countP (fun tr => tr.countP isReject503 == 0) = 1 ∧
    ((runSeq sampleOnceOpts [(sampleEnv, sampleReq), (sampleEnv, sampleReq)]
        sampleState).2.tail.all
      (fun tr => tr == [Event.httpError 503 "Server is shutting down"])) = true ∧
    (runSeq sampleOnceOpts [(sampleEnv, sampleReq), (sampleEnv, sampleReq)]
        sampleState).1.onceFlag = 1 :=
  once_single_admission sampleOnceOpts
    [(sampleEnv, sampleReq), (sampleEnv, sampleReq)] sampleState rfl rfl
    (List.cons_ne_nil _ _)

/-- C2 witness: a concrete successful session increments and decrements the
counter exactly once, starts with the increment, and decrements only after
run and transport teardown. -/
theorem counter_adjusted_once_witness :
    (handleWS sampleOpts sampleEnv sampleReq sampleState).2.countP isEnter = 1 ∧
    (handleWS sampleOpts sampleEnv sampleReq sampleState).2.countP isLeave = 1 ∧
    (handleWS sampleOpts sampleEnv sampleReq sampleState).2.head? =
      some (Event.enter 1) ∧
    ∀ e ∈ (handleWS sampleOpts sampleEnv sampleReq sampleState).2.dropWhile
        (fun e => !(isLeave e)), isRunOrClose e = false :=
  counter_adjusted_once sampleOpts sampleEnv sampleReq sampleState (by decide)

/-! ## Claims C4, C5, C6: handshake ordering and argument policy -/

/-- A failing once gate means the compare-and-swap condition of the handler
is true. -/
theorem onceGateFail_cond (opts : Options) (st : SrvState)
    (hgate : onceGatePass opts st = false) :
    (opts.once && st.onceFlag != 0) = true := by
  unfold onceGatePass at hgate
  cases hb : (opts.once && st.onceFlag != 0)
  · rw [hb] at hgate
    exact absurd hgate (by decide)
  · rfl

/-- If the init-message credential check fails, `processWSConn` emits no
factory call. -/
theorem initAuthFail_no_factory (opts : Options) (penv : ProcEnv)
    (h : initAuthOk opts penv = false) :
    (processWSConn opts penv).2.countP isFactoryCall = 0 := by
  unfold initAuthOk at h
  unfold processWSConn
  split
  · rfl
  · rename_i typ line heq
    split
    · rfl
    · rename_i hty
      have htyp : typ = WSFrameType.text := not_ne_iff.mp hty
      subst htyp
      rw [heq] at h
      simp only [] at h
      split
      · rfl
      · rename_i init hpi
        rw [hpi] at h
        simp only [] at h
        unfold processAfterInit
        split
        · rfl
        · rename_i decoded hb
          rw [hb] at h
          simp only [] at h
          split
          · rfl
          · rename_i hne
            exact absurd (not_ne_iff.mp hne) (by simpa using h)

/-- Any parameters handed to `server.factory.New` by `processAfterInit` are
exactly the result of parsing the chosen query path. -/
theorem processAfterInit_factory_params (opts : Options) (env : ProcEnv)
    (init : InitMessage) (params : List (String × String))
    (hmem : Event.factoryNewCall params ∈ (processAfterInit opts env init).2) :
    env.urlParse (queryPathOf opts init) = some params := by
  unfold processAfterInit at hmem
  split at hmem
  · simp at hmem
  · split at hmem
    · simp at hmem
    · split at hmem
      · simp at hmem
      · rename_i ps hu
        split at hmem
        · simp at hmem
          rw [hu, hmem]
        · split at hmem
          · simp at hmem
            rw [hu, hmem]
          · split at hmem
            · simp at hmem
              rw [hu, hmem]
            · simp at hmem
              rw [hu, hmem]

/-- If the HTTP-level basic-auth check fails while basic auth is enabled, the
handler body emits no factory call. -/
theorem httpAuthFail_no_factory (opts : Options) (env : HandlerEnv) (req : Request)
    (num : Int) (h1 : opts.enableBasicAuth = true)
    (h2 : httpAuthPass opts env.b64 req = false) :
    (handleWSBody opts env req num).2.countP isFactoryCall = 0 := by
  unfold handleWSBody
  split
  · rfl
  · split
    · rfl
    · rw [if_pos ⟨by rw [h1], h2⟩]
      rfl

/-- C5: with basic authentication enabled no backend process is created for
mismatching credentials — a failing HTTP credential check means the handler
trace has no `server.factory.New` call, a failing init-message credential
check means `processWSConn` has none, and conversely any factory call in a
`processWSConn` trace implies the init credential check passed. -/
theorem basic_auth_gates_spawn (opts : Options) (env : HandlerEnv) (req : Request)
    (st : SrvState) :
    (opts.enableBasicAuth = true → httpAuthPass opts env.b64 req = false →
      (handleWS opts env req st).2.countP isFactoryCall = 0) ∧
    (∀ penv : ProcEnv, initAuthOk opts penv = false →
      (processWSConn opts penv).2.countP isFactoryCall = 0) ∧
    (∀ penv : ProcEnv, ∀ params : List (String × String),
      Event.factoryNewCall params ∈ (processWSConn opts penv).2 →
      initAuthOk opts penv = true) := by
  refine ⟨?_, fun penv h => initAuthFail_no_factory opts penv h, ?_⟩
  · intro h1 h2
    cases hg : onceGatePass opts st with
    | false =>
      unfold handleWS
      rw [if_pos (onceGateFail_cond opts st hg)]
      rfl
    | true =>
      rw [handleWS_trace_shape opts env req st hg]
      have hz := httpAuthFail_no_factory opts env req (st.count + 1) h1 h2
      cases hO : opts.once <;>
        simp [hO, List.countP_cons, List.countP_append, hz, isFactoryCall]
  · intro penv params hmem
    cases ha : initAuthOk opts penv with
    | true => rfl
    | false =>
      have h0 := initAuthFail_no_factory opts penv ha
      have := List.countP_eq_zero.mp h0 _ hmem
      simp [isFactoryCall] at this

/-- C5 witness: with basic auth enabled, a request carrying no credentials
yields no factory call, and an init message whose token fails to decode
yields none either. -/
theorem basic_auth_gates_spawn_witness :
    (handleWS sampleAuthOpts badB64Env badAuthReq sampleState).2.countP
        isFactoryCall = 0 ∧
    (processWSConn sampleAuthOpts noB64Proc).2.countP isFactoryCall = 0 :=
  ⟨(basic_auth_gates_spawn sampleAuthOpts badB64Env badAuthReq sampleState).1
      rfl (by decide),
   (basic_auth_gates_spawn sampleAuthOpts badB64Env badAuthReq sampleState).2.1
      noB64Proc (by decide)⟩

/-- C6: when `PermitArguments` is disabled the argument string of the init
message is ignored entirely — two init messages differing only in their
arguments produce identical `processAfterInit` results, and any parameters
passed to `server.factory.New` are those of the empty query. -/
theorem arguments_ignored_without_permit (opts : Options) (env : ProcEnv)
    (i1 i2 : InitMessage) (hperm : opts.permitArguments = false)
    (htok : i1.authToken = i2.authToken) :
    processAfterInit opts env i1 = processAfterInit opts env i2 ∧
    ∀ params : List (String × String),
      Event.factoryNewCall params ∈ (processAfterInit opts env i1).2 →
      env.urlParse "?" = some params := by
  have hq1 : queryPathOf opts i1 = "?" := by
    unfold queryPathOf
    rw [if_neg (fun hc => by rw [hperm] at hc; exact absurd hc.1 (by decide))]
  have hq2 : queryPathOf opts i2 = "?" := by
    unfold queryPathOf
    rw [if_neg (fun hc => by rw [hperm] at hc; exact absurd hc.1 (by decide))]
  constructor
  · unfold processAfterInit
    rw [hq1, hq2, htok]
  · intro params hmem
    have h := processAfterInit_factory_params opts env i1 params hmem
    rw [hq1] at h
    exact h

/-- C6 witness: with argument passthrough disabled, two init messages with
the same token and different argument strings are processed identically. -/
theorem arguments_ignored_without_permit_witness :
    processAfterInit noArgsOpts sampleProc
        { authToken := "dG9r", arguments := "a=1" } =
      processAfterInit noArgsOpts sampleProc
        { authToken := "dG9r", arguments := "b=2" } :=
  (arguments_ignored_without_permit noArgsOpts sampleProc
    { authToken := "dG9r", arguments := "a=1" }
    { authToken := "dG9r", arguments := "b=2" } rfl rfl).1

/-- C4 counterexample: a concrete execution of `processWSConn` in which the
window-title template fails — the execution fails, yet `server.factory.New`
was invoked, contradicting the claim that every failing execution spawns no
process. -/
theorem title_failure_after_spawn :
    (processWSConn sampleOpts titleFailProc).1 =
      GoErr.other "failed to fill window title template" ∧
    Event.factoryNewCall [("arg", "1")] ∈ (processWSConn sampleOpts titleFailProc).2 := by
  constructor
  · rfl
  · decide

/-- C4 amended: a failure in reading, typing, unmarshalling or
authenticating the init message aborts before `server.factory.New`, as does a
failure to parse the argument string; a window-title template failure happens
after a successful factory call, but the deferred `slave.Close` still runs
before `processWSConn` returns, so the transport is torn down. -/
theorem handshake_failure_no_spawn (opts : Options) (env : ProcEnv)
    (init : InitMessage) :
    (initAuthOk opts env = false →
      (processWSConn opts env).2.countP isFactoryCall = 0) ∧
    (env.urlParse (queryPathOf opts init) = none →
      (processAfterInit opts env init).2.countP isFactoryCall = 0) ∧
    (env.titleExec = none → ∀ params : List (String × String),
      Event.factoryNewCall params ∈ (processAfterInit opts env init).2 →
      env.factoryNew params = true →
      (processAfterInit opts env init).1 =
        GoErr.other "failed to fill window title template" ∧
      Event.slaveClose ∈ (processAfterInit opts env init).2) := by
  refine ⟨initAuthFail_no_factory opts env, ?_, ?_⟩
  · intro hu
    unfold processAfterInit
    split
    · rfl
    · split
      · rfl
      · split
        · rfl
        · rename_i ps hps
          rw [hu] at hps
          exact absurd hps (by simp)
  · intro ht params hmem hfc
    unfold processAfterInit at hmem ⊢
    split at hmem
    · simp at hmem
    · rename_i decoded hb
      split at hmem
      · simp at hmem
      · rename_i hne
        have hdc : decoded = opts.credential := not_ne_iff.mp hne
        split at hmem
        · simp at hmem
        · rename_i ps hu
          split at hmem
          · rename_i hf
            simp only [List.mem_singleton] at hmem
            cases hmem
            rw [hfc] at hf
            exact absurd hf (by decide)
          · rename_i hf2
            rw [if_neg hne, if_neg hf2, ht]
            exact ⟨rfl, by simp⟩

/-- C4 amended witness: a read failure yields no factory call, and a
title-template failure yields the template error with the slave closed. -/
theorem handshake_failure_no_spawn_witness :
    (processWSConn sampleOpts readFailProc).2.countP isFactoryCall = 0 ∧
    ((processAfterInit sampleOpts titleFailProc sampleInit).1 =
        GoErr.other "failed to fill window title template" ∧
      Event.slaveClose ∈ (processAfterInit sampleOpts titleFailProc sampleInit).2) :=
  ⟨(handshake_failure_no_spawn sampleOpts readFailProc sampleInit).1 (by decide),
   (handshake_failure_no_spawn sampleOpts titleFailProc sampleInit).2.2 rfl
     [("arg", "1")] (by decide) rfl⟩

/-! ## Claim C7: close-reason mapping and identical cleanup -/

/-- The trace of `processAfterInit` does not depend on the result of
`tty.Run`. -/
theorem processAfterInit_run_indep (opts : Options) (p : ProcEnv)
    (init : InitMessage) (x y : GoErr) :
    (processAfterInit opts { p with runResult := x } init).2 =
      (processAfterInit opts { p with runResult := y } init).2 := by
  unfold processAfterInit
  dsimp only
  repeat' split
  all_goals rfl

/-- The trace of `processWSConn` does not depend on the result of
`tty.Run`. -/
theorem processWSConn_run_indep (opts : Options) (p : ProcEnv) (x y : GoErr) :
    (processWSConn opts { p with runResult := x }).2 =
      (processWSConn opts { p with runResult := y }).2 := by
  unfold processWSConn
  dsimp only
  split
  · rfl
  · split
    · rfl
    · split
      · rfl
      · exact processAfterInit_run_indep opts p _ x y

/-- The body trace of the handler does not depend on the result of
`tty.Run`. -/
theorem handleWSBody_run_indep (opts : Options) (env : HandlerEnv) (req : Request)
    (num : Int) (x y : GoErr) :
    (handleWSBody opts (envWithRun env x) req num).2 =
      (handleWSBody opts (envWithRun env y) req num).2 := by
  unfold handleWSBody envWithRun
  dsimp only
  split
  · rfl
  · split
    · rfl
    · split
      · rfl
      · split
        · rfl
        · rw [processWSConn_run_indep opts env.proc x y]

/-- The handler's final state is independent of the run result, and its trace
is independent of it up to the logged close reason. -/
theorem handleWS_run_indep (opts : Options) (env : HandlerEnv) (req : Request)
    (st : SrvState) (x y : GoErr) :
    (handleWS opts (envWithRun env x) req st).1 =
      (handleWS opts (envWithRun env y) req st).1 ∧
    (handleWS opts (envWithRun env x) req st).2.map eraseReason =
      (handleWS opts (envWithRun env y) req st).2.map eraseReason := by
  cases hg : onceGatePass opts st with
  | false =>
    unfold handleWS
    rw [onceGateFail_cond opts st hg]
    exact ⟨rfl, rfl⟩
  | true =>
    constructor
    · unfold handleWS
      rw [onceGatePass_cond opts st hg]
      rfl
    · rw [handleWS_trace_shape opts (envWithRun env x) req st hg,
          handleWS_trace_shape opts (envWithRun env y) req st hg]
      simp only [List.cons_append, List.append_assoc, List.map_cons, List.map_append]
      rw [handleWSBody_run_indep opts env req (st.count + 1) x y]
      simp [eraseReason]

/-- C7: `ErrSlaveClosed` is logged as the factory name and `ErrMasterClosed`
as "client" — two distinct reasons whenever the factory name differs from
"client" — while cleanup is identical in every case: the deferred block
decrements the counter exactly once and logs the close reason with the remote
address, and changing the run result changes nothing but the logged
reason. -/
theorem close_reason_distinct_cleanup (opts : Options) (env : HandlerEnv)
    (req : Request) (st : SrvState) (hname : env.factoryName ≠ "client")
    (hgate : onceGatePass opts st = true) :
    closeReasonOf env.ctxCanceled env.factoryName GoErr.slaveClosed =
      env.factoryName ∧
    closeReasonOf env.ctxCanceled env.factoryName GoErr.masterClosed = "client" ∧
    closeReasonOf env.ctxCanceled env.factoryName GoErr.slaveClosed ≠
      closeReasonOf env.ctxCanceled env.factoryName GoErr.masterClosed ∧
    (∀ x : GoErr,
      (handleWS opts (envWithRun env x) req st).2.countP isLeave = 1 ∧
      (handleWS opts (envWithRun env x) req st).2.countP isLogClosed = 1 ∧
      Event.logClosed
          (handleWSBody opts (envWithRun env x) req (st.count + 1)).1 req.remoteAddr
        ∈ (handleWS opts (envWithRun env x) req st).2) ∧
    (∀ x y : GoErr,
      (handleWS opts (envWithRun env x) req st).1 =
        (handleWS opts (envWithRun env y) req st).1 ∧
      (handleWS opts (envWithRun env x) req st).2.map eraseReason =
        (handleWS opts (envWithRun env y) req st).2.map eraseReason) := by
  have h1 : closeReasonOf env.ctxCanceled env.factoryName GoErr.slaveClosed =
      env.factoryName := by
    cases hc : env.ctxCanceled <;> simp [closeReasonOf, ctxErr, hc]
  have h2 : closeReasonOf env.ctxCanceled env.factoryName GoErr.masterClosed =
      "client" := by
    cases hc : env.ctxCanceled <;> simp [closeReasonOf, ctxErr, hc]
  refine ⟨h1, h2, by rw [h1, h2]; exact hname, ?_, fun x y => handleWS_run_indep opts env req st x y⟩
  intro x
  rw [handleWS_trace_shape opts (envWithRun env x) req st hgate]
  have hzl := handleWSBody_countP_zero opts (envWithRun env x) req (st.count + 1)
    isLeave (fun e he => (plain_components he).2.1)
  have hzg := handleWSBody_countP_zero opts (envWithRun env x) req (st.count + 1)
    isLogClosed (fun e he => (plain_components he).2.2.1)
  refine ⟨?_, ?_, ?_⟩
  · cases hO : opts.once <;>
      simp [hO, List.countP_cons, List.countP_append, hzl, isLeave, isLogClosed,
        isEnter]
  · cases hO : opts.once <;>
      simp [hO, List.countP_cons, List.countP_append, hzg, isLeave, isLogClosed,
        isEnter]
  · cases hO : opts.once <;> simp [hO]

/-- C7 witness: with the concrete factory name "local command", the two
session-ending errors are logged as "local command" and "client". -/
theorem close_reason_distinct_cleanup_witness :
    closeReasonOf sampleEnv.ctxCanceled sampleEnv.factoryName GoErr.slaveClosed =
      sampleEnv.factoryName ∧
    closeReasonOf sampleEnv.ctxCanceled sampleEnv.factoryName GoErr.masterClosed =
      "client" :=
  ⟨(close_reason_distinct_cleanup sampleOpts sampleEnv sampleReq sampleState
      (by decide) (by decide)).1,
   (close_reason_distinct_cleanup sampleOpts sampleEnv sampleReq sampleState
      (by decide) (by decide)).2.1⟩

/-! ## Lemmas about path splitting and joining -/

/-- Splitting never yields an empty element list. -/
theorem splitSlash_ne_nil (l : List Char) : splitSlash l ≠ [] := by
  cases l with
  | nil => simp [splitSlash]
  | cons c rest =>
    unfold splitSlash
    split
    · simp
    · split <;> simp

/-- Unfolding equation of `splitSlash` at a separator. -/
theorem splitSlash_cons_slash (z : List Char) :
    splitSlash ('/' :: z) = [] :: splitSlash z := by
  conv_lhs => unfold splitSlash
  rw [if_pos rfl]

/-- Unfolding equation of `splitSlash` at a non-separator. -/
theorem splitSlash_cons_other (c : Char) (z : List Char) (hc : c ≠ '/') :
    splitSlash (c :: z) =
      match splitSlash z with
      | [] => [[c]]
      | e :: es => (c :: e) :: es := by
  conv_lhs => unfold splitSlash
  rw [if_neg hc]

/-- Splitting distributes over a separator in the middle. -/
theorem splitSlash_append (xs ys : List Char) :
    splitSlash (xs ++ '/' :: ys) = splitSlash xs ++ splitSlash ys := by
  induction xs with
  | nil => simp [splitSlash]
  | cons c rest ih =>
    by_cases hc : c = '/'
    · subst hc
      rw [List.cons_append, splitSlash_cons_slash, splitSlash_cons_slash, ih,
        List.cons_append]
    · obtain ⟨e, es, hrest⟩ : ∃ e es, splitSlash rest = e :: es := by
        cases h : splitSlash rest with
        | nil => exact absurd h (splitSlash_ne_nil rest)
        | cons e es => exact ⟨e, es, rfl⟩
      rw [List.cons_append, splitSlash_cons_other c _ hc, splitSlash_cons_other c _ hc,
        ih, hrest]
      rfl

/-- Every element produced by splitting is free of separators. -/
theorem splitSlash_no_slash (l : List Char) : ∀ e ∈ splitSlash l, '/' ∉ e := by
  induction l with
  | nil =>
    intro e he
    simp [splitSlash] at he
    subst he
    simp
  | cons c rest ih =>
    intro e he
    unfold splitSlash at he
    split at he
    · rename_i hc
      rcases List.mem_cons.mp he with rfl | h
      · simp
      · exact ih e h
    · rename_i hc
      split at he
      · rename_i hnil
        exact absurd hnil (splitSlash_ne_nil rest)
      · rename_i e0 es0 hrest
        rcases List.mem_cons.mp he with rfl | h
        · intro hmem
          rcases List.mem_cons.mp hmem with h1 | h1
          · exact hc h1.symm
          · exact ih e0 (by rw [hrest]; exact List.mem_cons_self _ _) h1
        · exact ih e (by rw [hrest]; exact List.mem_cons_of_mem _ h)

/-- A separator-free character list splits into itself alone. -/
theorem splitSlash_single (l : List Char) (h : '/' ∉ l) : splitSlash l = [l] := by
  induction l with
  | nil => rfl
  | cons c rest ih =>
    have hc : c ≠ '/' := fun hcc => h (by rw [hcc]; exact List.mem_cons_self _ _)
    rw [splitSlash_cons_other c rest hc, ih (fun hm => h (List.mem_cons_of_mem c hm))]

/-- Joining then splitting recovers a nonempty list of separator-free
elements. -/
theorem splitSlash_joinSlash (es : List (List Char)) (hne : es ≠ [])
    (h : ∀ e ∈ es, '/' ∉ e) : splitSlash (joinSlash es) = es := by
  induction es with
  | nil => exact absurd rfl hne
  | cons e es ih =>
    cases es with
    | nil => exact splitSlash_single e (h e (List.mem_cons_self _ _))
    | cons f fs =>
      have hj : joinSlash (e :: f :: fs) = e ++ '/' :: joinSlash (f :: fs) := rfl
      rw [hj, splitSlash_append, splitSlash_single e (h e (List.mem_cons_self _ _)),
        ih (by simp) (fun x hx => h x (List.mem_cons_of_mem _ hx))]
      rfl

/-- Joining with one extra final element. -/
theorem joinSlash_append_last (es : List (List Char)) (e : List Char) :
    joinSlash (es ++ [e]) = if es = [] then e else joinSlash es ++ '/' :: e := by
  induction es with
  | nil => simp [joinSlash]
  | cons f fs ih =>
    cases fs with
    | nil => simp [joinSlash]
    | cons g gs =>
      have h1 : (f :: g :: gs) ++ [e] = f :: ((g :: gs) ++ [e]) := rfl
      have h2 : joinSlash (f :: ((g :: gs) ++ [e])) =
          f ++ '/' :: joinSlash ((g :: gs) ++ [e]) := by
        cases gs <;> rfl
      rw [h1, h2, ih]
      simp [joinSlash]

/-- A list whose prefix is itself with anything appended. -/
theorem listPrefix_self_append (a b : List Char) : listPrefix a (a ++ b) = true := by
  induction a with
  | nil => rfl
  | cons c cs ih => simp [listPrefix, ih]

/-! ## The clean pass invariant -/

/-- A droppable element leaves the stack unchanged. -/
theorem cleanStep_drop (r : Bool) (s : List (List Char)) (e : List Char)
    (h : e = [] ∨ e = ['.']) : cleanStep r s e = s := by
  unfold cleanStep
  rw [if_pos h]

/-- A normal element is pushed. -/
theorem cleanStep_push (r : Bool) (s : List (List Char)) (e : List Char)
    (h1 : ¬(e = [] ∨ e = ['.'])) (h2 : e ≠ ['.', '.']) :
    cleanStep r s e = e :: s := by
  unfold cleanStep
  rw [if_neg h1, if_neg h2]

/-- A ".." on the empty stack: dropped at the root, kept otherwise. -/
theorem cleanStep_dd_nil (r : Bool) :
    cleanStep r [] ['.', '.'] = if r then [] else [['.', '.']] := by
  rfl

/-- A ".." on a nonempty stack: accumulated on a ".." top, otherwise pops. -/
theorem cleanStep_dd_cons (r : Bool) (top : List Char) (rest : List (List Char)) :
    cleanStep r (top :: rest) ['.', '.'] =
      if top = ['.', '.'] then ['.', '.'] :: top :: rest else rest := by
  unfold cleanStep
  rw [if_neg (by decide), if_pos rfl]

/-- One step of the clean pass preserves the stack invariant. -/
theorem cleanStep_stack (rooted : Bool) (s : List (List Char)) (e : List Char)
    (hs : CleanStack rooted s) (he : '/' ∉ e) :
    CleanStack rooted (cleanStep rooted s e) := by
  obtain ⟨ns, ds, rfl, hns, hds, hrd⟩ := hs
  by_cases hk : e = [] ∨ e = ['.']
  · rw [cleanStep_drop rooted _ e hk]
    exact ⟨ns, ds, rfl, hns, hds, hrd⟩
  · by_cases hdd : e = ['.', '.']
    · subst hdd
      cases ns with
      | cons a as =>
        rw [List.cons_append, cleanStep_dd_cons,
          if_neg (hns a (List.mem_cons_self _ _)).2.2.1]
        exact ⟨as, ds, rfl, fun x hx => hns x (List.mem_cons_of_mem _ hx), hds, hrd⟩
      | nil =>
        cases ds with
        | nil =>
          rw [List.nil_append, cleanStep_dd_nil]
          cases rooted
          · exact ⟨[], [['.', '.']], by simp, by simp, by simp,
              fun hrt => absurd hrt (by simp)⟩
          · exact ⟨[], [], by simp, by simp, by simp, fun _ => rfl⟩
        | cons d ds2 =>
          rw [List.nil_append, cleanStep_dd_cons,
            if_pos (hds d (List.mem_cons_self _ _))]
          refine ⟨[], ['.', '.'] :: d :: ds2, rfl, by simp, ?_, ?_⟩
          · intro x hx
            rcases List.mem_cons.mp hx with rfl | hx
            · rfl
            · exact hds x hx
          · intro hrt
            exact absurd (hrd hrt) (by simp)
    · rw [cleanStep_push rooted _ e hk hdd]
      refine ⟨e :: ns, ds, rfl, ?_, hds, hrd⟩
      intro x hx
      rcases List.mem_cons.mp hx with rfl | hx
      · exact ⟨fun hc => hk (Or.inl hc), fun hc => hk (Or.inr hc), hdd, he⟩
      · exact hns x hx

/-- The clean pass preserves the stack invariant over a whole element
list. -/
theorem foldl_cleanStep_stack (rooted : Bool) :
    ∀ (es : List (List Char)) (s : List (List Char)), CleanStack rooted s →
      (∀ e ∈ es, '/' ∉ e) →
      CleanStack rooted (es.foldl (cleanStep rooted) s) := by
  intro es
  induction es with
  | nil => intro s hs _; exact hs
  | cons e rest ih =>
    intro s hs hes
    rw [List.foldl_cons]
    exact ih _ (cleanStep_stack rooted s e hs (hes e (List.mem_cons_self _ _)))
      (fun x hx => hes x (List.mem_cons_of_mem _ hx))

/-- When no element is "..", the clean pass keeps the non-droppable elements
in order on the stack. -/
theorem foldl_cleanStep_no_dotdot (rooted : Bool) :
    ∀ (es : List (List Char)), (∀ e ∈ es, e ≠ ['.', '.']) →
      ∀ (s : List (List Char)),
      es.foldl (cleanStep rooted) s =
        (es.filter (fun e => !(e == [] || e == ['.']))).reverse ++ s := by
  intro es
  induction es with
  | nil => intro _ s; simp
  | cons e rest ih =>
    intro hdd s
    have hstep : cleanStep rooted s e =
        if e = [] ∨ e = ['.'] then s else e :: s := by
      unfold cleanStep
      split
      · rfl
      · rw [if_neg (hdd e (List.mem_cons_self _ _))]
    rw [List.foldl_cons, hstep]
    by_cases hk : e = [] ∨ e = ['.']
    · rw [if_pos hk, ih (fun x hx => hdd x (List.mem_cons_of_mem _ hx)) s,
        List.filter_cons]
      rcases hk with rfl | rfl <;> simp
    · have h1 : e ≠ [] := fun hc => hk (Or.inl hc)
      have h2 : e ≠ ['.'] := fun hc => hk (Or.inr hc)
      rw [if_neg hk, ih (fun x hx => hdd x (List.mem_cons_of_mem _ hx)) (e :: s),
        List.filter_cons]
      simp [h1, h2]

/-! ## Shape of a cleaned path -/

/-- A join of at least two elements is never empty. -/
theorem joinSlash_cons_cons_ne (e f : List Char) (fs : List (List Char)) :
    joinSlash (e :: f :: fs) ≠ [] := by
  have h : joinSlash (e :: f :: fs) = e ++ '/' :: joinSlash (f :: fs) := rfl
  rw [h]
  cases e <;> simp

/-- The clean pass output, decomposed by the stack invariant: some leading
".." elements (none when rooted) followed by normal elements. -/
theorem goCleanData_decomp (p : List Char) :
    ∃ ns ds : List (List Char),
      cleanElems (isRooted p) (splitSlash p) = ds.reverse ++ ns.reverse ∧
      (∀ e ∈ ns, goodElem e) ∧ (∀ e ∈ ds, e = ['.', '.']) ∧
      (isRooted p = true → ds = []) := by
  obtain ⟨ns, ds, hE, hns, hds, hrd⟩ :=
    foldl_cleanStep_stack (isRooted p) (splitSlash p) []
      ⟨[], [], rfl, by simp, by simp, fun _ => rfl⟩ (splitSlash_no_slash p)
  refine ⟨ns, ds, ?_, hns, hds, hrd⟩
  unfold cleanElems
  rw [hE, List.reverse_append]

/-- If the cleaned path does not begin with "..", its element view contains
no ".." at all. -/
theorem goCleanData_no_dotdot (p : List Char)
    (hguard : listPrefix ['.', '.'] (goCleanData p) = false) :
    ['.', '.'] ∉ splitSlash (goCleanData p) := by
  obtain ⟨ns, ds, helems, hns, hds, hrd⟩ := goCleanData_decomp p
  have hds0 : ds = [] := by
    cases hr : isRooted p with
    | true => exact hrd hr
    | false =>
      by_contra hne
      obtain ⟨d, ds2, hdscons⟩ : ∃ d ds2, ds.reverse = d :: ds2 := by
        cases hdr : ds.reverse with
        | nil => exact absurd (by simpa using congrArg List.reverse hdr) hne
        | cons d ds2 => exact ⟨d, ds2, rfl⟩
      have hd : d = ['.', '.'] :=
        hds d (List.mem_reverse.mp (by rw [hdscons]; exact List.mem_cons_self _ _))
      have hout : ∃ t, joinSlash (cleanElems (isRooted p) (splitSlash p)) =
          ['.', '.'] ++ t := by
        rw [helems, hdscons, hd, List.cons_append]
        cases ds2 ++ ns.reverse with
        | nil => exact ⟨[], rfl⟩
        | cons f fs => exact ⟨'/' :: joinSlash (f :: fs), rfl⟩
      obtain ⟨t, ht⟩ := hout
      have hpre : listPrefix ['.', '.'] (goCleanData p) = true := by
        unfold goCleanData assemble
        rw [ht, hr, if_neg (by decide), if_neg (by simp)]
        exact listPrefix_self_append _ _
      rw [hpre] at hguard
      cases hguard
  subst hds0
  simp only [List.reverse_nil, List.nil_append] at helems
  have hgc : goCleanData p = assemble (isRooted p) (joinSlash ns.reverse) := by
    unfold goCleanData
    rw [helems]
  cases hr : isRooted p with
  | false =>
    cases hnrev : ns.reverse with
    | nil =>
      have hdot : goCleanData p = ['.'] := by
        rw [hgc, hnrev]
        unfold assemble
        rw [hr]
        simp [joinSlash]
      rw [hdot]
      decide
    | cons f fs =>
      have hne : ns.reverse ≠ [] := by rw [hnrev]; simp
      have hjoin_ne : joinSlash ns.reverse ≠ [] := by
        rw [hnrev]
        cases fs with
        | nil =>
          exact (hns f (List.mem_reverse.mp
            (by rw [hnrev]; exact List.mem_cons_self _ _))).1
        | cons g gs => exact joinSlash_cons_cons_ne f g gs
      have hres : goCleanData p = joinSlash ns.reverse := by
        rw [hgc]
        unfold assemble
        rw [hr, if_neg (by decide), if_neg hjoin_ne]
      rw [hres, splitSlash_joinSlash ns.reverse hne
        (fun x hx => (hns x (List.mem_reverse.mp hx)).2.2.2)]
      intro hmem
      exact (hns _ (List.mem_reverse.mp hmem)).2.2.1 rfl
  | true =>
    have hres : goCleanData p = '/' :: joinSlash ns.reverse := by
      rw [hgc]
      unfold assemble
      rw [hr, if_pos rfl]
    cases hnrev : ns.reverse with
    | nil =>
      rw [hres, hnrev]
      decide
    | cons f fs =>
      have hne : ns.reverse ≠ [] := by rw [hnrev]; simp
      rw [hres, splitSlash_cons_slash, splitSlash_joinSlash ns.reverse hne
        (fun x hx => (hns x (List.mem_reverse.mp hx)).2.2.2)]
      intro hmem
      rcases List.mem_cons.mp hmem with h | h
      · cases h
      · exact (hns _ (List.mem_reverse.mp h)).2.2.1 rfl

/-- Joining a ".."-free path under the uploads directory stays inside it:
the cleaned join is "uploads" itself or starts with "uploads/", and its
element view still has no "..". -/
theorem join_uploads_inside (cl : List Char) (hdd : ['.', '.'] ∉ splitSlash cl) :
    (goCleanData ("./uploads".data ++ '/' :: cl) = "uploads".data ∨
      listPrefix "uploads/".data (goCleanData ("./uploads".data ++ '/' :: cl)) = true) ∧
    ['.', '.'] ∉ splitSlash (goCleanData ("./uploads".data ++ '/' :: cl)) := by
  have hroot : isRooted ("./uploads".data ++ '/' :: cl) = false := rfl
  have hsplit : splitSlash ("./uploads".data ++ '/' :: cl) =
      [['.'], "uploads".data] ++ splitSlash cl := by
    have h1 : "./uploads".data ++ '/' :: cl =
        ['.'] ++ '/' :: ("uploads".data ++ '/' :: cl) := rfl
    rw [h1, splitSlash_append, splitSlash_append]
    rfl
  have hddne : ∀ e ∈ splitSlash cl, e ≠ ['.', '.'] :=
    fun e he hce => hdd (hce ▸ he)
  have hfold : cleanElems (isRooted ("./uploads".data ++ '/' :: cl))
      (splitSlash ("./uploads".data ++ '/' :: cl)) =
      "uploads".data :: (splitSlash cl).filter (fun e => !(e == [] || e == ['.'])) := by
    rw [hroot, hsplit]
    unfold cleanElems
    rw [List.foldl_append,
      show List.foldl (cleanStep false) [] [['.'], "uploads".data] =
        ["uploads".data] from rfl,
      foldl_cleanStep_no_dotdot false (splitSlash cl) hddne ["uploads".data]]
    simp
  have hgc : goCleanData ("./uploads".data ++ '/' :: cl) =
      assemble false (joinSlash ("uploads".data ::
        (splitSlash cl).filter (fun e => !(e == [] || e == ['.'])))) := by
    unfold goCleanData
    rw [hfold, hroot]
  cases hFc : (splitSlash cl).filter (fun e => !(e == [] || e == ['.'])) with
  | nil =>
    rw [hFc] at hgc
    have hres : goCleanData ("./uploads".data ++ '/' :: cl) = "uploads".data := by
      rw [hgc]
      rfl
    rw [hres]
    exact ⟨Or.inl rfl, by decide⟩
  | cons f fs =>
    rw [hFc] at hgc
    have hres : goCleanData ("./uploads".data ++ '/' :: cl) =
        "uploads".data ++ '/' :: joinSlash (f :: fs) := by
      rw [hgc]
      unfold assemble
      rw [if_neg (by decide), if_neg (joinSlash_cons_cons_ne _ f fs)]
      rfl
    have hmemF : ∀ x ∈ f :: fs, x ∈ splitSlash cl := by
      intro x hx
      have : x ∈ (splitSlash cl).filter (fun e => !(e == [] || e == ['.'])) := by
        rw [hFc]; exact hx
      exact (List.mem_filter.mp this).1
    constructor
    · right
      rw [hres,
        show "uploads".data ++ '/' :: joinSlash (f :: fs) =
          "uploads/".data ++ joinSlash (f :: fs) from rfl]
      exact listPrefix_self_append _ _
    · have hsf : ∀ x ∈ "uploads".data :: f :: fs, '/' ∉ x := by
        intro x hx
        rcases List.mem_cons.mp hx with rfl | hx
        · decide
        · exact splitSlash_no_slash cl x (hmemF x hx)
      rw [hres,
        show "uploads".data ++ '/' :: joinSlash (f :: fs) =
          joinSlash ("uploads".data :: f :: fs) from rfl,
        splitSlash_joinSlash ("uploads".data :: f :: fs) (by simp) hsf]
      intro hmem
      rcases List.mem_cons.mp hmem with h | h
      · cases h
      · exact hddne _ (hmemF _ h) rfl

/-- C9: every client-supplied path accepted by the shared sanitization
(clean, then reject a ".." prefix) refers, after joining with the uploads
directory, to a location inside "./uploads": the joined path is "uploads"
itself or begins with "uploads/", and its element view contains no ".."
traversal at all. -/
theorem sanitized_path_inside (p cleaned : String)
    (h : sanitizePath p = some cleaned) :
    (goJoin "./uploads" cleaned = "uploads" ∨
      goStartsWith (goJoin "./uploads" cleaned) "uploads/" = true) ∧
    ['.', '.'] ∉ splitSlash (goJoin "./uploads" cleaned).data := by
  unfold sanitizePath at h
  split at h
  · cases h
  · rename_i hg
    have hcl : cleaned = goClean p := (Option.some.injEq .. ▸ h).symm
    have hguard : listPrefix ['.', '.'] (goCleanData p.data) = false := by
      cases hb : listPrefix ['.', '.'] (goCleanData p.data)
      · rfl
      · exact absurd hb hg
    have hdd : ['.', '.'] ∉ splitSlash cleaned.data := by
      rw [hcl]
      exact goCleanData_no_dotdot p.data hguard
    have hjoin : goJoin "./uploads" cleaned =
        String.mk (goCleanData ("./uploads".data ++ '/' :: cleaned.data)) := by
      unfold goJoin
      rw [if_neg (by decide)]
      unfold goClean
      rfl
    obtain ⟨h1, h2⟩ := join_uploads_inside cleaned.data hdd
    constructor
    · rcases h1 with h1 | h1
      · left
        rw [hjoin, h1]
      · right
        rw [hjoin]
        unfold goStartsWith
        exact h1
    · rw [hjoin]
      exact h2

/-- C9 witness: the accepted path "docs/a.txt" joins to a location inside
the uploads directory. -/
theorem sanitized_path_inside_witness :
    (goJoin "./uploads" "docs/a.txt" = "uploads" ∨
      goStartsWith (goJoin "./uploads" "docs/a.txt") "uploads/" = true) ∧
    ['.', '.'] ∉ splitSlash (goJoin "./uploads" "docs/a.txt").data :=
  sanitized_path_inside "docs/a.txt" "docs/a.txt" (by decide)

/-! ## Decimal digits and candidate-name injectivity -/

/-- The code of a digit character. -/
theorem digitChar_toNat (d : Nat) (h : d < 10) : (digitChar d).toNat = 48 + d := by
  interval_cases d <;> decide

/-- Digit characters are never the path separator. -/
theorem digitChar_ne_slash (d : Nat) (h : d < 10) : digitChar d ≠ '/' := by
  interval_cases d <;> decide

/-- Reading one more digit. -/
theorem digitsVal_append (l : List Char) (c : Char) :
    digitsVal (l ++ [c]) = 10 * digitsVal l + (c.toNat - 48) := by
  unfold digitsVal
  rw [List.foldl_append]
  rfl

/-- With enough fuel, the digit string of `n` reads back as `n`. -/
theorem natDigitsAux_val : ∀ fuel n, n < 10 ^ fuel →
    digitsVal (natDigitsAux fuel n) = n := by
  intro fuel
  induction fuel with
  | zero =>
    intro n hn
    have : n = 0 := Nat.lt_one_iff.mp hn
    subst this
    rfl
  | succ f ih =>
    intro n hn
    unfold natDigitsAux
    split
    · rename_i h10
      unfold digitsVal
      simp [List.foldl_cons, digitChar_toNat n h10]
    · rename_i h10
      rw [digitsVal_append, ih (n / 10) ?hdiv,
        digitChar_toNat (n % 10) (Nat.mod_lt _ (by norm_num))]
      · omega
      · rw [Nat.div_lt_iff_lt_mul (by norm_num : (0 : Nat) < 10)]
        calc n < 10 ^ (f + 1) := hn
        _ = 10 ^ f * 10 := by ring

/-- The digit string has no separator. -/
theorem natDigitsAux_no_slash : ∀ fuel n, '/' ∉ natDigitsAux fuel n := by
  intro fuel
  induction fuel with
  | zero => intro n; simp [natDigitsAux]
  | succ f ih =>
    intro n
    unfold natDigitsAux
    split
    · rename_i h10
      intro hm
      exact digitChar_ne_slash n h10 (List.mem_singleton.mp hm).symm
    · intro hm
      rcases List.mem_append.mp hm with h | h
      · exact ih (n / 10) h
      · exact digitChar_ne_slash (n % 10) (Nat.mod_lt _ (by norm_num))
          (List.mem_singleton.mp h).symm

/-- Printing natural numbers in decimal is injective. -/
theorem natStr_inj (i j : Nat) (h : (natStr i).data = (natStr j).data) : i = j := by
  have hi : i < 10 ^ (i + 1) :=
    lt_of_lt_of_le (Nat.lt_pow_self (by norm_num) i)
      (Nat.pow_le_pow_right (by norm_num) (Nat.le_succ i))
  have hj : j < 10 ^ (j + 1) :=
    lt_of_lt_of_le (Nat.lt_pow_self (by norm_num) j)
      (Nat.pow_le_pow_right (by norm_num) (Nat.le_succ j))
  have hdata : natDigitsAux (i + 1) i = natDigitsAux (j + 1) j := h
  calc i = digitsVal (natDigitsAux (i + 1) i) := (natDigitsAux_val (i + 1) i hi).symm
  _ = digitsVal (natDigitsAux (j + 1) j) := by rw [hdata]
  _ = j := natDigitsAux_val (j + 1) j hj

/-- Splitting a path extended by a separator-free suffix extends the last
element. -/
theorem splitSlash_ext (xs : List Char) :
    ∃ init last, splitSlash xs = init ++ [last] ∧
      ∀ ys, '/' ∉ ys → splitSlash (xs ++ ys) = init ++ [last ++ ys] := by
  induction xs with
  | nil =>
    refine ⟨[], [], rfl, fun ys hys => ?_⟩
    rw [List.nil_append, splitSlash_single ys hys]
    rfl
  | cons c xs ih =>
    obtain ⟨init, last, hQ, hext⟩ := ih
    by_cases hc : c = '/'
    · subst hc
      refine ⟨[] :: init, last, ?_, fun ys hys => ?_⟩
      · rw [splitSlash_cons_slash, hQ]
        rfl
      · rw [List.cons_append, splitSlash_cons_slash, hext ys hys]
        rfl
    · cases hinit : init with
      | nil =>
        refine ⟨[], c :: last, ?_, fun ys hys => ?_⟩
        · rw [splitSlash_cons_other c xs hc, hQ, hinit]
          rfl
        · rw [List.cons_append, splitSlash_cons_other c _ hc, hext ys hys, hinit]
          rfl
      | cons i0 init2 =>
        refine ⟨(c :: i0) :: init2, last, ?_, fun ys hys => ?_⟩
        · rw [splitSlash_cons_other c xs hc, hQ, hinit]
          rfl
        · rw [List.cons_append, splitSlash_cons_other c _ hc, hext ys hys, hinit]
          rfl

/-- An element containing an underscore is neither droppable nor "..". -/
theorem underscore_elem (lastQ T : List Char) :
    ¬((lastQ ++ '_' :: T) = [] ∨ (lastQ ++ '_' :: T) = ['.']) ∧
      (lastQ ++ '_' :: T) ≠ ['.', '.'] := by
  have hu : '_' ∈ lastQ ++ '_' :: T :=
    List.mem_append_right _ (List.mem_cons_self _ _)
  refine ⟨?_, ?_⟩
  · rintro (h | h) <;> rw [h] at hu
    · cases hu
    · exact absurd hu (by decide)
  · intro h
    rw [h] at hu
    exact absurd hu (by decide)

/-- Reassembling elements ending in an underscore element: the result is a
fixed prefix followed by that element. -/
theorem assemble_join_ext (r : Bool) (L : List (List Char)) (lastQ : List Char) :
    ∃ C, ∀ T, assemble r (joinSlash (L ++ [lastQ ++ '_' :: T])) = C ++ '_' :: T := by
  cases L with
  | nil =>
    cases r with
    | false =>
      refine ⟨lastQ, fun T => ?_⟩
      rw [joinSlash_append_last, if_pos rfl]
      unfold assemble
      rw [if_neg (by decide), if_neg (by simp)]
    | true =>
      refine ⟨'/' :: lastQ, fun T => ?_⟩
      rw [joinSlash_append_last, if_pos rfl]
      unfold assemble
      rw [if_pos rfl]
      rfl
  | cons g gs =>
    cases r with
    | false =>
      refine ⟨joinSlash (g :: gs) ++ '/' :: lastQ, fun T => ?_⟩
      rw [joinSlash_append_last, if_neg (by simp)]
      unfold assemble
      rw [if_neg (by decide), if_neg (by simp)]
      simp
    | true =>
      refine ⟨'/' :: (joinSlash (g :: gs) ++ '/' :: lastQ), fun T => ?_⟩
      rw [joinSlash_append_last, if_neg (by simp)]
      unfold assemble
      rw [if_pos rfl]
      simp

/-- Cleaning a path of the form `Q_T` with a separator-free tail `T`: the
result is a fixed prefix (depending only on `Q`) followed by `_T`. -/
theorem goCleanData_underscore (Q : List Char) :
    ∃ C, ∀ T, '/' ∉ T → goCleanData (Q ++ '_' :: T) = C ++ '_' :: T := by
  obtain ⟨init, lastQ, hQ, hext⟩ := splitSlash_ext Q
  obtain ⟨C, hC⟩ := assemble_join_ext (isRooted (Q ++ ['_']))
    ((init.foldl (cleanStep (isRooted (Q ++ ['_']))) []).reverse) lastQ
  refine ⟨C, fun T hT => ?_⟩
  have hTn : '/' ∉ ('_' : Char) :: T := by
    intro hm
    rcases List.mem_cons.mp hm with h | h
    · cases h
    · exact hT h
  have hroot : isRooted (Q ++ '_' :: T) = isRooted (Q ++ ['_']) := by
    cases Q <;> rfl
  have hgood := underscore_elem lastQ T
  unfold goCleanData cleanElems
  rw [hroot, hext ('_' :: T) hTn, List.foldl_append,
    show ∀ (st : List (List Char)) (e : List Char),
      List.foldl (cleanStep (isRooted (Q ++ ['_']))) st [e] =
        cleanStep (isRooted (Q ++ ['_'])) st e from fun st e => rfl,
    cleanStep_push _ _ _ hgood.1 hgood.2, List.reverse_cons]
  exact hC T

/-- The i-th candidate path is a fixed prefix followed by the decimal index
and the extension. -/
theorem candPath_form (dir name ext : String) (hext : '/' ∉ ext.data) :
    ∃ C, ∀ i, (candPath dir name ext i).data =
      C ++ '_' :: ((natStr i).data ++ ext.data) := by
  have htail : ∀ i : Nat, '/' ∉ (natStr i).data ++ ext.data := by
    intro i hm
    rcases List.mem_append.mp hm with h | h
    · exact natDigitsAux_no_slash (i + 1) i h
    · exact hext h
  by_cases hd : dir = ""
  · obtain ⟨C, hC⟩ := goCleanData_underscore name.data
    refine ⟨C, fun i => ?_⟩
    unfold candPath goJoin
    rw [hd, if_pos rfl, if_neg ?bne]
    · unfold goClean
      rw [show (name ++ "_" ++ natStr i ++ ext).data =
          name.data ++ '_' :: ((natStr i).data ++ ext.data) from by
        simp [String.data_append]]
      exact hC _ (htail i)
    · intro hb
      have : (name ++ "_" ++ natStr i ++ ext).data = [] := by rw [hb]
      simp [String.data_append] at this
  · obtain ⟨C, hC⟩ := goCleanData_underscore (dir ++ "/" ++ name).data
    refine ⟨C, fun i => ?_⟩
    unfold candPath goJoin
    rw [if_neg hd]
    unfold goClean
    rw [show (dir ++ "/" ++ (name ++ "_" ++ natStr i ++ ext)).data =
        (dir ++ "/" ++ name).data ++ '_' :: ((natStr i).data ++ ext.data) from by
      simp [String.data_append]]
    exact hC _ (htail i)

/-- Candidate paths are injective in the index. -/
theorem candPath_inj (dir name ext : String) (hext : '/' ∉ ext.data) :
    Function.Injective (candPath dir name ext) := by
  obtain ⟨C, hC⟩ := candPath_form dir name ext hext
  intro a b hab
  have h2 : (candPath dir name ext a).data = (candPath dir name ext b).data := by
    rw [hab]
  rw [hC a, hC b] at h2
  have h3 : ('_' : Char) :: ((natStr a).data ++ ext.data) =
      '_' :: ((natStr b).data ++ ext.data) := List.append_cancel_left h2
  have h4 : (natStr a).data ++ ext.data = (natStr b).data ++ ext.data := by
    injection h3
  exact natStr_inj a b (List.append_cancel_right h4)

/-- The extension computed by `goExt` never contains a separator. -/
theorem extScan_no_slash :
    ∀ (l acc : List Char), '/' ∉ acc → '/' ∉ extScan l acc := by
  intro l
  induction l with
  | nil => intro acc _; simp [extScan]
  | cons c rest ih =>
    intro acc hacc
    unfold extScan
    split
    · simp
    · split
      · rename_i hcs hcd
        intro hm
        rcases List.mem_cons.mp hm with h | h
        · cases h
        · exact hacc h
      · rename_i hcs hcd
        refine ih (c :: acc) ?_
        intro hm
        rcases List.mem_cons.mp hm with h | h
        · exact hcs h.symm
        · exact hacc h

/-- The extension of any path is separator-free. -/
theorem goExt_no_slash (s : String) : '/' ∉ (goExt s).data :=
  extScan_no_slash s.data.reverse [] (by simp)

/-- The bounded fresh-index search is correct whenever a fresh index exists
within its fuel window. -/
theorem findFreshAux_spec (paths : List String) (cand : Nat → String) :
    ∀ fuel i, (∃ k, i ≤ k ∧ k < i + fuel ∧ cand k ∉ paths) →
      cand (findFreshAux paths cand fuel i) ∉ paths ∧
      i ≤ findFreshAux paths cand fuel i ∧
      ∀ m, i ≤ m → m < findFreshAux paths cand fuel i → cand m ∈ paths := by
  intro fuel
  induction fuel with
  | zero =>
    intro i ⟨k, hk1, hk2, _⟩
    omega
  | succ f ih =>
    intro i hex
    unfold findFreshAux
    split
    · rename_i hmem
      have hex2 : ∃ k, i + 1 ≤ k ∧ k < (i + 1) + f ∧ cand k ∉ paths := by
        obtain ⟨k, h1, h2, h3⟩ := hex
        refine ⟨k, ?_, by omega, h3⟩
        rcases Nat.eq_or_lt_of_le h1 with rfl | h
        · exact absurd hmem h3
        · omega
      obtain ⟨ha, hb, hc⟩ := ih (i + 1) hex2
      refine ⟨ha, by omega, ?_⟩
      intro m hm1 hm2
      rcases Nat.eq_or_lt_of_le hm1 with rfl | h
      · exact hmem
      · exact hc m h hm2
    · rename_i hmem
      exact ⟨hmem, Nat.le_refl i, fun m hm1 hm2 => by omega⟩

/-- Pigeonhole: an injective candidate family always leaves some index in a
window one longer than the path list fresh. -/
theorem fresh_exists (paths : List String) (cand : Nat → String)
    (hinj : Function.Injective cand) (i : Nat) :
    ∃ k, i ≤ k ∧ k < i + (paths.length + 1) ∧ cand k ∉ paths := by
  by_contra hcon
  push_neg at hcon
  have hsub : ∀ x ∈ (List.range' i (paths.length + 1)).map cand, x ∈ paths := by
    intro x hx
    rcases List.mem_map.mp hx with ⟨k, hk, rfl⟩
    have hk2 := List.mem_range'_1.mp hk
    exact hcon k hk2.1 hk2.2
  have hnodup : ((List.range' i (paths.length + 1)).map cand).Nodup :=
    (List.nodup_range' i (paths.length + 1) 1 (by norm_num)).map hinj
  have h1 : ((List.range' i (paths.length + 1)).map cand).toFinset.card =
      paths.length + 1 := by
    rw [List.toFinset_card_of_nodup hnodup]
    simp
  have h2 : ((List.range' i (paths.length + 1)).map cand).toFinset ⊆
      paths.toFinset := by
    intro x hx
    rw [List.mem_toFinset] at hx ⊢
    exact hsub x hx
  have h3 := Finset.card_le_card h2
  have h4 := List.toFinset_card_le paths
  omega

/-- The index selected by the unique-name loop is at least 1, its candidate
is fresh, and every smaller index at least 1 collides. -/
theorem uniqueIdx_spec (paths : List String) (dir name ext : String)
    (hext : '/' ∉ ext.data) :
    candPath dir name ext (uniqueIdx paths dir name ext) ∉ paths ∧
    1 ≤ uniqueIdx paths dir name ext ∧
    ∀ m, 1 ≤ m → m < uniqueIdx paths dir name ext →
      candPath dir name ext m ∈ paths := by
  exact findFreshAux_spec paths (candPath dir name ext) (paths.length + 1) 1
    (fresh_exists paths (candPath dir name ext) (candPath_inj dir name ext hext) 1)

/-! ## File-system lemmas -/

/-- Membership in the file system is membership among its keys. -/
theorem fsMem_iff (fs : FileSys) (p : String) :
    fsMem fs p = true ↔ p ∈ fsKeys fs := by
  unfold fsMem fsKeys
  rw [List.any_eq_true]
  constructor
  · rintro ⟨kv, hkv, he⟩
    exact List.mem_map.mpr ⟨kv, hkv, (beq_iff_eq .. |>.mp he)⟩
  · intro h
    rcases List.mem_map.mp h with ⟨kv, hkv, rfl⟩
    exact ⟨kv, hkv, beq_iff_eq .. |>.mpr rfl⟩

/-- A present path is a member. -/
theorem fsGet_mem (fs : FileSys) (p v : String) (h : fsGet fs p = some v) :
    fsMem fs p = true := by
  unfold fsGet at h
  cases hf : fs.entries.find? (fun kv => kv.1 == p) with
  | none => rw [hf] at h; cases h
  | some kv =>
    unfold fsMem
    rw [List.any_eq_true]
    have hp : (kv.1 == p) = true := by
      have := List.find?_some hf
      simpa using this
    exact ⟨kv, List.mem_of_find?_eq_some hf, hp⟩

/-- Writing at a different path leaves a file unchanged. -/
theorem fsGet_write_ne (fs : FileSys) (p q c : String) (h : q ≠ p) :
    fsGet (fsWrite fs q c) p = fsGet fs p := by
  unfold fsGet fsWrite
  rw [List.find?_cons_of_neg]
  simp [h]

/-- C10: uploads never overwrite an existing file.  When the destination
already exists, both the plain upload handler and the chunked-upload merge
write to the candidate `name_j.ext` for the smallest `j` at least 1 whose
path does not exist (every smaller positive index collides); and a plain
upload leaves the contents of every pre-existing file unchanged. -/
theorem upload_no_overwrite (fs : FileSys)
    (filePath relativePath content p v fullTargetPath filename : String) :
    (fsMem fs filePath = true →
      fsMem fs (uploadDest fs filePath relativePath) = false ∧
      ∃ j, 1 ≤ j ∧
        uploadDest fs filePath relativePath =
          candPath (goDir filePath)
            (goTrimSuffix (goBase relativePath) (goExt relativePath))
            (goExt relativePath) j ∧
        ∀ m, 1 ≤ m → m < j →
          fsMem fs (candPath (goDir filePath)
            (goTrimSuffix (goBase relativePath) (goExt relativePath))
            (goExt relativePath) m) = true) ∧
    (fsGet fs p = some v →
      fsGet (uploadOne fs filePath relativePath content).1 p = some v) ∧
    (fsMem fs (goJoin fullTargetPath filename) = true →
      fsMem fs (chunkMergeDest fs fullTargetPath filename) = false ∧
      ∃ j, 1 ≤ j ∧
        chunkMergeDest fs fullTargetPath filename =
          candPath fullTargetPath (goTrimSuffix filename (goExt filename))
            (goExt filename) j ∧
        ∀ m, 1 ≤ m → m < j →
          fsMem fs (candPath fullTargetPath
            (goTrimSuffix filename (goExt filename)) (goExt filename) m) = true) := by
  obtain ⟨hfresh1, hone1, hmin1⟩ := uniqueIdx_spec (fsKeys fs) (goDir filePath)
    (goTrimSuffix (goBase relativePath) (goExt relativePath)) (goExt relativePath)
    (goExt_no_slash relativePath)
  obtain ⟨hfresh2, hone2, hmin2⟩ := uniqueIdx_spec (fsKeys fs) fullTargetPath
    (goTrimSuffix filename (goExt filename)) (goExt filename)
    (goExt_no_slash filename)
  have hfreshMem1 : fsMem fs (candPath (goDir filePath)
      (goTrimSuffix (goBase relativePath) (goExt relativePath)) (goExt relativePath)
      (uniqueIdx (fsKeys fs) (goDir filePath)
        (goTrimSuffix (goBase relativePath) (goExt relativePath))
        (goExt relativePath))) = false := by
    cases hb : fsMem fs (candPath (goDir filePath)
        (goTrimSuffix (goBase relativePath) (goExt relativePath)) (goExt relativePath)
        (uniqueIdx (fsKeys fs) (goDir filePath)
          (goTrimSuffix (goBase relativePath) (goExt relativePath))
          (goExt relativePath)))
    · rfl
    · exact absurd ((fsMem_iff fs _).mp hb) hfresh1
  refine ⟨?_, ?_, ?_⟩
  · intro hmem
    have hdest : uploadDest fs filePath relativePath =
        candPath (goDir filePath)
          (goTrimSuffix (goBase relativePath) (goExt relativePath))
          (goExt relativePath)
          (uniqueIdx (fsKeys fs) (goDir filePath)
            (goTrimSuffix (goBase relativePath) (goExt relativePath))
            (goExt relativePath)) := by
      unfold uploadDest
      rw [if_pos hmem]
    refine ⟨by rw [hdest]; exact hfreshMem1,
      uniqueIdx (fsKeys fs) (goDir filePath)
        (goTrimSuffix (goBase relativePath) (goExt relativePath))
        (goExt relativePath), hone1, hdest,
      fun m hm1 hm2 => (fsMem_iff fs _).mpr (hmin1 m hm1 hm2)⟩
  · intro hget
    have hpmem := fsGet_mem fs p v hget
    have hne : uploadDest fs filePath relativePath ≠ p := by
      intro hdp
      cases hb : fsMem fs filePath with
      | false =>
        have hdest : uploadDest fs filePath relativePath = filePath := by
          unfold uploadDest
          rw [if_neg (by rw [hb]; exact Bool.false_ne_true)]
        rw [hdest] at hdp
        rw [hdp] at hb
        rw [hpmem] at hb
        cases hb
      | true =>
        have hdest : uploadDest fs filePath relativePath =
            candPath (goDir filePath)
              (goTrimSuffix (goBase relativePath) (goExt relativePath))
              (goExt relativePath)
              (uniqueIdx (fsKeys fs) (goDir filePath)
                (goTrimSuffix (goBase relativePath) (goExt relativePath))
                (goExt relativePath)) := by
          unfold uploadDest
          rw [if_pos hb]
        rw [hdest] at hdp
        exact hfresh1 (hdp ▸ (fsMem_iff fs p).mp hpmem)
    show fsGet (fsWrite fs (uploadDest fs filePath relativePath) content) p = some v
    rw [fsGet_write_ne fs p _ content hne]
    exact hget
  · intro hmem
    have hdest : chunkMergeDest fs fullTargetPath filename =
        candPath fullTargetPath (goTrimSuffix filename (goExt filename))
          (goExt filename)
          (uniqueIdx (fsKeys fs) fullTargetPath
            (goTrimSuffix filename (goExt filename)) (goExt filename)) := by
      unfold chunkMergeDest
      rw [if_pos hmem]
    refine ⟨?_, uniqueIdx (fsKeys fs) fullTargetPath
        (goTrimSuffix filename (goExt filename)) (goExt filename),
      hone2, hdest, fun m hm1 hm2 => (fsMem_iff fs _).mpr (hmin2 m hm1 hm2)⟩
    rw [hdest]
    cases hb : fsMem fs (candPath fullTargetPath
        (goTrimSuffix filename (goExt filename)) (goExt filename)
        (uniqueIdx (fsKeys fs) fullTargetPath
          (goTrimSuffix filename (goExt filename)) (goExt filename)))
    · rfl
    · exact absurd ((fsMem_iff fs _).mp hb) hfresh2

/-- C10 witness: uploading "file.txt" over an existing "uploads/file.txt"
writes to the fresh "uploads/file_1.txt", keeps the old contents readable,
and the chunked merge picks the same fresh name. -/
theorem upload_no_overwrite_witness :
    (fsMem (FileSys.mk [("uploads/file.txt", "old")])
        (uploadDest (FileSys.mk [("uploads/file.txt", "old")])
          "uploads/file.txt" "file.txt") = false ∧
      ∃ j, 1 ≤ j ∧
        uploadDest (FileSys.mk [("uploads/file.txt", "old")])
            "uploads/file.txt" "file.txt" =
          candPath (goDir "uploads/file.txt")
            (goTrimSuffix (goBase "file.txt") (goExt "file.txt"))
            (goExt "file.txt") j ∧
        ∀ m, 1 ≤ m → m < j →
          fsMem (FileSys.mk [("uploads/file.txt", "old")])
            (candPath (goDir "uploads/file.txt")
              (goTrimSuffix (goBase "file.txt") (goExt "file.txt"))
              (goExt "file.txt") m) = true) ∧
    fsGet (uploadOne (FileSys.mk [("uploads/file.txt", "old")])
        "uploads/file.txt" "file.txt" "new").1 "uploads/file.txt" = some "old" :=
  ⟨(upload_no_overwrite (FileSys.mk [("uploads/file.txt", "old")])
      "uploads/file.txt" "file.txt" "new" "uploads/file.txt" "old"
      "uploads" "file.txt").1 (by decide),
   (upload_no_overwrite (FileSys.mk [("uploads/file.txt", "old")])
      "uploads/file.txt" "file.txt" "new" "uploads/file.txt" "old"
      "uploads" "file.txt").2.1 (by decide)⟩

end Gotty
